import Mathlib

/-!
Verification of the commonmeta identifier codec and classifier.

This file contains a shallow embedding, in Lean 4, of the Crockford base32
codec (`src/crockford.rs`) and of the identifier classification and decode
dispatcher (`src/utils.rs`, `src/doiutils.rs`) of the commonmeta-rs
repository, together with theorems settling the specification claims about
them.

Modelling conventions:
* Rust strings are modelled as `List Char`.  All identifier and codec data
  handled by the theorems below is ASCII, where Rust's byte indexing and
  char indexing agree; `str::to_lowercase` is modelled by ASCII case
  folding (`asciiLower`).  The one place where the byte/char distinction is
  observable on non-ASCII input — the byte slicing
  `&normalized[normalized.len() - 2..]` in `decode`, which can panic on a
  non-char-boundary — is discussed at the C1 theorem.
* Machine integers (`i64`, `u8`) are modelled by `Int`/`Nat`; Rust's `%` on
  `i64` is truncated remainder, modelled by `Int.tmod`.  The one `i64`
  operation that overflows on in-range inputs, the product `100 * number`
  inside `generate_checksum`, is modelled with explicit two's-complement
  wrap-around (`wrap64`, the release-mode semantics; a debug build panics
  there instead).  Every other intermediate of the codec on the domains of
  the theorems below is bounded by the input number itself (each theorem
  that needs it carries the corresponding bound as a hypothesis), so the
  unbounded model of the remaining operations agrees with `i64`.
* Fallible Rust code returns `Except`/`Option`; a Rust panic is modelled by
  `Option.none` (see `validate_mod11_2` and `decode_id`).
* Regexes are translated into explicit character-level matchers, one per
  recogniser of `utils.rs`; each definition carries the regex it embeds.
-/

namespace Commonmeta

/-- The base32 alphabet of `crockford.rs`:
`ENCODING_CHARS = "0123456789abcdefghjkmnpqrstvwxyz"` (no i, l, o, u). -/
def ENCODING_CHARS : List Char :=
  ['0', '1', '2', '3', '4', '5', '6', '7'] ++
  ['8', '9', 'a', 'b', 'c', 'd', 'e', 'f', 'g', 'h', 'j', 'k',
   'm', 'n', 'p', 'q', 'r', 's', 't', 'v', 'w', 'x', 'y', 'z']

/-- `ENCODING_CHARS.chars().nth(d).unwrap()`; every call site has `d < 32`,
so the default is never used. -/
def encChar (d : Nat) : Char := ENCODING_CHARS.getD d '0'

/-- Position of the first occurrence of `c` in a list. -/
def idxFrom (c : Char) : List Char → Option Nat
  | [] => none
  | x :: rest => if x = c then some 0 else (idxFrom c rest).map (· + 1)

/-- `ENCODING_CHARS.find(c)`: the index of `c` in the alphabet (all alphabet
characters are one byte, so Rust's byte position is the character index). -/
def charIndex (c : Char) : Option Nat := idxFrom c ENCODING_CHARS

/-- The error type `CrockfordError` of `crockford.rs`.  `InvalidChecksum`
carries the original input string and the parsed `u8` checksum. -/
inductive CrockfordError where
  | InvalidCharacter (c : Char)
  | InvalidChecksum (s : List Char) (cs : Nat)
  | InvalidChecksumFormat (s : List Char)
deriving DecidableEq, Repr

instance {ε α : Type} [DecidableEq ε] [DecidableEq α] : DecidableEq (Except ε α) := by
  intro a b
  cases a <;> cases b <;>
    first
      | exact isFalse (by intro h; exact Except.noConfusion h)
      | exact decidable_of_iff _ (by constructor <;> (intro h; first | exact congrArg _ h | injection h))

/-- Two's-complement wrap-around of signed 64-bit arithmetic
(`9223372036854775808 = 2^63`, `18446744073709551616 = 2^64`): the value a
release-mode Rust build computes when an `i64` operation overflows (a debug
build panics instead). -/
def wrap64 (x : Int) : Int :=
  (x + 9223372036854775808) % 18446744073709551616 - 9223372036854775808

/-- `generate_checksum` of `crockford.rs`:
`97 - ((100 * number) % 97) + 1` on `i64` (`%` is truncated remainder; the
product `100 * number` is `i64` multiplication, which wraps around whenever
`|number| > i64::MAX / 100` — the subsequent subtraction and increment stay
in range for every possible remainder). -/
def generate_checksum (number : Int) : Int :=
  97 - Int.tmod (wrap64 (100 * number)) 97 + 1

/-- `validate` of `crockford.rs`: `checksum == generate_checksum(number)`. -/
def validate (number : Int) (checksum : Int) : Bool :=
  checksum == generate_checksum number

/-- Fuel-driven base32 digit expansion; `base32Aux f n` equals the digit
list of `n` whenever `n ≤ f`. -/
def base32Aux (fuel : Nat) (n : Nat) : List Char :=
  match fuel with
  | 0 => []
  | f + 1 => if n = 0 then [] else base32Aux f (n / 32) ++ [encChar (n % 32)]

/-- The `while num > 0` loop of `encode`: most-significant-first base32
digits of a positive number (empty for zero, matching the loop). -/
def base32digits (n : Nat) : List Char := base32Aux n n

/-- Fuel-driven decimal digit expansion (for `format!`). -/
def natDecAux (fuel : Nat) (n : Nat) : List Char :=
  match fuel with
  | 0 => []
  | f + 1 => if n = 0 then [] else natDecAux f (n / 10) ++ [Char.ofNat (48 + n % 10)]

/-- Decimal rendering of a natural number, `0` rendering as `"0"`. -/
def natDec (n : Nat) : List Char :=
  if n = 0 then ['0'] else natDecAux n n

/-- Models `format!("{:02}", i)` on `i64`: decimal rendering zero-padded on
the left to a minimum width of 2 (the sign counts towards the width). -/
def format02 (i : Int) : List Char :=
  if i < 0 then '-' :: natDec i.natAbs
  else
    let s := natDec i.toNat
    if s.length < 2 then List.replicate (2 - s.length) '0' ++ s else s

/-- The `split_every` loop of `encode`: a `'-'` between consecutive chunks
of `k` characters, no leading or trailing separator.  Fuel-driven; the
fuel `l.length` always suffices since `encode` only calls it with `k > 0`. -/
def splitAux (fuel : Nat) (k : Nat) (l : List Char) : List Char :=
  match fuel with
  | 0 => l
  | f + 1 =>
    match l with
    | [] => []
    | _ :: _ => if l.length ≤ k then l else l.take k ++ '-' :: splitAux f k (l.drop k)

/-- Chunking entry point used by `encode` when `split_every > 0`. -/
def splitEvery (k : Nat) (l : List Char) : List Char := splitAux l.length k l

/-- `encode` of `crockford.rs`.  For a negative `number` the Rust digit
loop body never runs and produces the empty string; `Int.toNat` of a
negative number is `0` and `base32digits 0 = []`, matching it. -/
def encode (number : Int) (split_every : Nat) (length : Nat) (checksum : Bool) : List Char :=
  let encoded := if number = 0 then ['0'] else base32digits number.toNat
  let length1 := if checksum then (if 2 < length then length - 2 else length) else length
  let encoded :=
    if 0 < length1 ∧ encoded.length < length1 then
      List.replicate (length1 - encoded.length) '0' ++ encoded
    else encoded
  let encoded :=
    if checksum then encoded ++ format02 (generate_checksum number) else encoded
  if 0 < split_every then splitEvery split_every encoded else encoded

/-- ASCII case folding: Rust's `str::to_lowercase` restricted to ASCII
(all data handled by the theorems below is ASCII). -/
def asciiLower (c : Char) : Char :=
  match c with
  | 'A' => 'a' | 'B' => 'b' | 'C' => 'c' | 'D' => 'd' | 'E' => 'e'
  | 'F' => 'f' | 'G' => 'g' | 'H' => 'h' | 'I' => 'i' | 'J' => 'j'
  | 'K' => 'k' | 'L' => 'l' | 'M' => 'm' | 'N' => 'n' | 'O' => 'o'
  | 'P' => 'p' | 'Q' => 'q' | 'R' => 'r' | 'S' => 's' | 'T' => 't'
  | 'U' => 'u' | 'V' => 'v' | 'W' => 'w' | 'X' => 'x' | 'Y' => 'y'
  | 'Z' => 'z'
  | _ => c

/-- Per-character effect of `normalize` of `crockford.rs`: lowercase, drop
`'-'`, substitute `i → 1`, `l → 1`, `o → 0`.  The substitution outputs are
never substitution inputs, so the sequential `String::replace` calls act
independently on each character. -/
def normChar (c : Char) : Option Char :=
  let lc := asciiLower c
  if lc = '-' then none
  else if lc = 'i' then some '1'
  else if lc = 'l' then some '1'
  else if lc = 'o' then some '0'
  else some lc

/-- `normalize` of `crockford.rs`. -/
def normalize (s : List Char) : List Char := s.filterMap normChar

/-- Models `str::parse::<u8>`: an optional leading `'+'`, then one or more
decimal digits, value at most 255.  (The strings parsed here never contain
`'-'`, which `normalize` has already removed.) -/
def parseU8 (s : List Char) : Option Nat :=
  let t := if s.headD ' ' = '+' then s.drop 1 else s
  if t = [] then none
  else if t.all Char.isDigit then
    let v := t.foldl (fun a c => a * 10 + (c.toNat - 48)) 0
    if v ≤ 255 then some v else none
  else none

/-- The digit loop of `decode`: `number = number * 32 + index(c)`, failing
with `InvalidCharacter` at the first character outside the alphabet. -/
def decodeLoop (acc : Int) : List Char → Except CrockfordError Int
  | [] => .ok acc
  | c :: rest =>
    match charIndex c with
    | some pos => decodeLoop (acc * 32 + (pos : Int)) rest
    | none => .error (.InvalidCharacter c)

/-- `decode` of `crockford.rs`.  The checksum extraction
`&normalized[normalized.len() - 2..]` is byte slicing in Rust; it is
modelled at character level, which agrees with the source on ASCII input
(on some non-ASCII inputs the Rust slice panics; see the C1 theorem). -/
def decode (s : List Char) (checksum : Bool) : Except CrockfordError Int :=
  let normalized := normalize s
  if checksum then
    if normalized.length < 2 then .error (.InvalidChecksumFormat normalized)
    else
      let cs_str := normalized.drop (normalized.length - 2)
      match parseU8 cs_str with
      | none => .error (.InvalidChecksumFormat cs_str)
      | some cs =>
        match decodeLoop 0 (normalized.take (normalized.length - 2)) with
        | .error e => .error e
        | .ok number =>
          if validate number (Int.ofNat cs) then .ok number
          else .error (.InvalidChecksum s cs)
  else decodeLoop 0 normalized

/-! ## String constants (as character lists) used by the recognisers -/

def strHttpSS : List Char := ['h', 't', 't', 'p', ':', '/', '/']
def strHttpsSS : List Char := ['h', 't', 't', 'p', 's', ':', '/', '/']
def strHttpS1 : List Char := ['h', 't', 't', 'p', ':', '/']
def strHttpsS1 : List Char := ['h', 't', 't', 'p', 's', ':', '/']
def strDx : List Char := ['d', 'x', '.']
def strDoiOrgSlash : List Char := ['d', 'o', 'i', '.', 'o', 'r', 'g', '/']
def strHandleStage : List Char :=
  ['h', 'a', 'n', 'd', 'l', 'e', '.', 's', 't', 'a', 'g', 'e', '.',
   'd', 'a', 't', 'a', 'c', 'i', 't', 'e', '.', 'o', 'r', 'g', '/']
def strHandleTest : List Char :=
  ['h', 'a', 'n', 'd', 'l', 'e', '.', 't', 'e', 's', 't', '.',
   'd', 'a', 't', 'a', 'c', 'i', 't', 'e', '.', 'o', 'r', 'g', '/']
def strDoiColon : List Char := ['d', 'o', 'i', ':']
def strTenDot : List Char := ['1', '0', '.']
def strFunderPre : List Char := ['1', '0', '.', '1', '3', '0', '3', '9', '/']
def strWwwDot : List Char := ['w', 'w', 'w', '.']
def strSandboxDot : List Char := ['s', 'a', 'n', 'd', 'b', 'o', 'x', '.']
def strOrcidOrg : List Char := ['o', 'r', 'c', 'i', 'd', '.', 'o', 'r', 'g', '/']
def strRorOrg : List Char := ['r', 'o', 'r', '.', 'o', 'r', 'g', '/']
def strGridAc : List Char := ['g', 'r', 'i', 'd', '.', 'a', 'c', '/']
def strInstitutes : List Char := ['i', 'n', 's', 't', 'i', 't', 'u', 't', 'e', 's', '/']
def strGridDot : List Char := ['g', 'r', 'i', 'd', '.']
def strWikidataWiki : List Char :=
  ['w', 'i', 'k', 'i', 'd', 'a', 't', 'a', '.', 'o', 'r', 'g', '/', 'w', 'i', 'k', 'i', '/']
def strIsniOrg : List Char := ['i', 's', 'n', 'i', '.', 'o', 'r', 'g', '/']
def strIsniSlash : List Char := ['i', 's', 'n', 'i', '/']
def strIssnPortal : List Char :=
  ['h', 't', 't', 'p', 's', ':', '/', '/', 'p', 'o', 'r', 't', 'a', 'l', '.',
   'i', 's', 's', 'n', '.', 'o', 'r', 'g', '/', 'r', 'e', 's', 'o', 'u', 'r',
   'c', 'e', '/', 'I', 'S', 'S', 'N', '/']
def strHttp : List Char := ['h', 't', 't', 'p']
def strHttps : List Char := ['h', 't', 't', 'p', 's']
def strRogueHost : List Char :=
  ['a', 'p', 'i', '.', 'r', 'o', 'g', 'u', 'e', '-', 's', 'c', 'h', 'o', 'l', 'a', 'r',
   '.', 'o', 'r', 'g']
def strPosts : List Char := ['p', 'o', 's', 't', 's']
def strOriginFrag : List Char := [';', 'o', 'r', 'i', 'g', 'i', 'n', '=']
def strJsessionFrag : List Char := [';', 'j', 's', 'e', 's', 's', 'i', 'o', 'n', 'i', 'd', '=']

/-- The type-tag strings returned by `validate_id` and `validate_url`. -/
def tagFunder : List Char :=
  ['C', 'r', 'o', 's', 's', 'r', 'e', 'f', ' ', 'F', 'u', 'n', 'd', 'e', 'r', ' ', 'I', 'D']
def tagDOI : List Char := ['D', 'O', 'I']
def tagUUID : List Char := ['U', 'U', 'I', 'D']
def tagRID : List Char := ['R', 'I', 'D']
def tagORCID : List Char := ['O', 'R', 'C', 'I', 'D']
def tagROR : List Char := ['R', 'O', 'R']
def tagGRID : List Char := ['G', 'R', 'I', 'D']
def tagWikidata : List Char := ['W', 'i', 'k', 'i', 'd', 'a', 't', 'a']
def tagISNI : List Char := ['I', 'S', 'N', 'I']
def tagISSN : List Char := ['I', 'S', 'S', 'N']
def tagURL : List Char := ['U', 'R', 'L']
def tagJSONFEEDID : List Char := ['J', 'S', 'O', 'N', 'F', 'E', 'E', 'D', 'I', 'D']

/-! ## Regex embeddings: the recognisers of `utils.rs` and `doiutils.rs`

Each regex is anchored (`^...$`) and consists of optional literal
scheme/host wrappers followed by a payload pattern; the embeddings strip
the wrappers and test the payload.  Stripping a present wrapper is
equivalent to the backtracking regex because no payload pattern can match
a string that starts with a scheme wrapper, and vice versa. -/

/-- Strip a mandatory literal head, or fail. -/
def stripPre (pre s : List Char) : Option (List Char) :=
  if pre.isPrefixOf s then some (s.drop pre.length) else none

/-- Strip an optional literal head. -/
def stripOpt (pre s : List Char) : List Char := (stripPre pre s).getD s

/-- Strip the first alternative head that matches, or fail. -/
def stripFirst (pres : List (List Char)) (s : List Char) : Option (List Char) :=
  match pres with
  | [] => none
  | p :: rest =>
    match stripPre p s with
    | some r => some r
    | none => stripFirst rest s

/-- Strip the first alternative head that matches, else leave unchanged. -/
def stripAny (pres : List (List Char)) (s : List Char) : List Char :=
  (stripFirst pres s).getD s

def isSpaceCh (c : Char) : Bool :=
  c == ' ' || c == '\t' || c == '\n' || c == '\r' || c == '\x0b' || c == '\x0c'

def isHexCh (c : Char) : Bool :=
  c.isDigit || (decide ('a' ≤ c) && decide (c ≤ 'f')) || (decide ('A' ≤ c) && decide (c ≤ 'F'))

def isHexLowerCh (c : Char) : Bool :=
  c.isDigit || (decide ('a' ≤ c) && decide (c ≤ 'f'))

def isUpperDigitCh (c : Char) : Bool :=
  c.isDigit || (decide ('A' ≤ c) && decide (c ≤ 'Z'))

def isLowerAlnumCh (c : Char) : Bool :=
  c.isDigit || (decide ('a' ≤ c) && decide (c ≤ 'z'))

def isAlphaCh (c : Char) : Bool :=
  (decide ('a' ≤ c) && decide (c ≤ 'z')) || (decide ('A' ≤ c) && decide (c ≤ 'Z'))

def isSepCh (c : Char) : Bool := c == ' ' || c == '-'

/-- The host part of the DOI regex after a scheme:
`(dx\.)?(doi\.org|handle\.stage\.datacite\.org|handle\.test\.datacite\.org)/`. -/
def doiHostTail (s : List Char) : Option (List Char) :=
  stripFirst [strDoiOrgSlash, strHandleStage, strHandleTest] (stripOpt strDx s)

/-- The optional resolver wrapper `(?:(http|https):/(/)?(dx\.)?(host)/)?` of
the DOI regex; at most one scheme alternative can be followed by a valid
host tail. -/
def doiResolverStrip (s : List Char) : List Char :=
  match [strHttpSS, strHttpsSS, strHttpS1, strHttpsS1].filterMap
      (fun p => (stripPre p s).bind doiHostTail) with
  | r :: _ => r
  | [] => s

/-- The DOI payload `10\.\d{4,5}/[^\s]+`: after `10.` there must be exactly
4 or 5 digits (a 6th digit would make both the 5- and the 4-digit
alternative hit a digit instead of `/`), then `/`, then a nonempty
whitespace-free suffix.  `\s` is modelled by its ASCII subset. -/
def doiPayloadOk (s : List Char) : Bool :=
  match stripPre strTenDot s with
  | none => false
  | some rest =>
    let k := (rest.takeWhile Char.isDigit).length
    match rest.drop k with
    | c :: suf =>
      (c == '/') && (decide (k = 4) || decide (k = 5)) && !suf.isEmpty
        && suf.all (fun x => !isSpaceCh x)
    | [] => false

/-- `validate_doi` of `doiutils.rs`, embedding
`^(?:(http|https):/(/)?(dx\.)?(doi\.org|handle\.stage\.datacite\.org|handle\.test\.datacite\.org)/)?(doi:)?(10\.\d{4,5}/[^\s]+)$`
and returning capture group 6 (the bare DOI). -/
def validate_doi (doi : List Char) : Option (List Char) :=
  let s := stripOpt strDoiColon (doiResolverStrip doi)
  if doiPayloadOk s then some s else none

/-- The Crossref Funder ID payload `(501)?1000[0-9]{5}`. -/
def fundrefPayloadOk (s : List Char) : Bool :=
  (match stripPre ['1', '0', '0', '0'] s with
   | some r => decide (r.length = 5) && r.all Char.isDigit
   | none => false)
  ||
  (match stripPre ['5', '0', '1', '1', '0', '0', '0'] s with
   | some r => decide (r.length = 5) && r.all Char.isDigit
   | none => false)

/-- `validate_crossref_funder_id` of `utils.rs`, embedding
`^(?:https?://doi\.org/)?(?:10\.13039/)?((501)?1000[0-9]{5})$`. -/
def validate_crossref_funder_id (fundref : List Char) : Option (List Char) :=
  let s := stripAny [strHttpsSS ++ strDoiOrgSlash, strHttpSS ++ strDoiOrgSlash] fundref
  let s := stripOpt strFunderPre s
  if fundrefPayloadOk s then some s else none

/-- `validate_uuid` of `utils.rs`, embedding
`^[a-fA-F0-9]{8}-[a-fA-F0-9]{4}-4[a-fA-F0-9]{3}-[89aAbB][a-fA-F0-9]{3}-[a-fA-F0-9]{12}$`. -/
def validate_uuid (uuid : List Char) : Option (List Char) :=
  if decide (uuid.length = 36)
      && (uuid.take 8).all isHexCh
      && ((uuid.getD 8 ' ') == '-')
      && ((uuid.drop 9).take 4).all isHexCh
      && ((uuid.getD 13 ' ') == '-')
      && ((uuid.getD 14 ' ') == '4')
      && ((uuid.drop 15).take 3).all isHexCh
      && ((uuid.getD 18 ' ') == '-')
      && ((uuid.getD 19 ' ') ∈ ['8', '9', 'a', 'A', 'b', 'B'])
      && ((uuid.drop 20).take 3).all isHexCh
      && ((uuid.getD 23 ' ') == '-')
      && ((uuid.drop 24).take 12).all isHexCh
  then some uuid else none

/-- `validate_rid` of `utils.rs`, embedding `^[0-9A-Z]{5}-[0-9A-Z]{3}[0-9]{2}$`. -/
def validate_rid (rid : List Char) : Option (List Char) :=
  if decide (rid.length = 11)
      && (rid.take 5).all isUpperDigitCh
      && ((rid.getD 5 ' ') == '-')
      && ((rid.drop 6).take 3).all isUpperDigitCh
      && ((rid.drop 9).all Char.isDigit)
  then some rid else none

/-- The ORCID payload `000[09][ -]000[123][ -]\d{4}[ -]\d{3}[0-9X]+`. -/
def orcidPayloadOk (s : List Char) : Bool :=
  match s with
  | '0' :: '0' :: '0' :: a :: s1 :: '0' :: '0' :: '0' :: b :: s2 ::
      c1 :: c2 :: c3 :: c4 :: s3 :: d1 :: d2 :: d3 :: rest =>
    (a == '0' || a == '9') && isSepCh s1
      && (b == '1' || b == '2' || b == '3') && isSepCh s2
      && [c1, c2, c3, c4].all Char.isDigit && isSepCh s3
      && [d1, d2, d3].all Char.isDigit
      && !rest.isEmpty && rest.all (fun c => c.isDigit || c == 'X')
  | _ => false

/-- Byte-lexicographic `≤` on strings, as Rust's `&str` ordering (all
compared data is ASCII, where bytes and characters coincide). -/
def strLe : List Char → List Char → Bool
  | [], _ => true
  | _ :: _, [] => false
  | a :: ra, b :: rb =>
    if a.toNat < b.toNat then true
    else if b.toNat < a.toNat then false
    else strLe ra rb

/-- `is_in_range` of `utils.rs`: `start <= value && value <= end`. -/
def is_in_range (value start stop : List Char) : Bool :=
  strLe start value && strLe value stop

def RANGE1_START : List Char :=
  ['0', '0', '0', '0', '0', '0', '0', '1', '5', '0', '0', '0', '0', '0', '0', '7']
def RANGE1_END : List Char :=
  ['0', '0', '0', '0', '0', '0', '0', '3', '5', '0', '0', '0', '0', '0', '0', '1']
def RANGE2_START : List Char :=
  ['0', '0', '0', '9', '0', '0', '0', '0', '0', '0', '0', '0', '0', '0', '0', '0']
def RANGE2_END : List Char :=
  ['0', '0', '0', '9', '0', '0', '1', '0', '0', '0', '0', '0', '0', '0', '0', '0']

/-- `check_orcid_number_range` of `utils.rs`: strip `-`/space, then test
membership of either reserved ORCID range by string comparison. -/
def check_orcid_number_range (orcid : List Char) : Bool :=
  let number := orcid.filter (fun c => !(c == '-') && !(c == ' '))
  is_in_range number RANGE1_START RANGE1_END || is_in_range number RANGE2_START RANGE2_END

/-- The eight concrete wrappers generated by
`(?:(?:http|https)://(?:(?:www|sandbox)?\.)?orcid\.org/)?`. -/
def orcidPres : List (List Char) :=
  [strHttpSS ++ strOrcidOrg, strHttpSS ++ ['.'] ++ strOrcidOrg,
   strHttpSS ++ strWwwDot ++ strOrcidOrg, strHttpSS ++ strSandboxDot ++ strOrcidOrg,
   strHttpsSS ++ strOrcidOrg, strHttpsSS ++ ['.'] ++ strOrcidOrg,
   strHttpsSS ++ strWwwDot ++ strOrcidOrg, strHttpsSS ++ strSandboxDot ++ strOrcidOrg]

/-- `validate_orcid` of `utils.rs`: regex match, then keep the payload only
if it lies in a reserved ORCID number range. -/
def validate_orcid (orcid : List Char) : Option (List Char) :=
  let s := stripAny orcidPres orcid
  if orcidPayloadOk s && check_orcid_number_range s then some s else none

/-- `validate_ror` of `utils.rs`, embedding
`^(?:(?:http|https)://ror\.org/)?(0[0-9a-z]{6}\d{2})$`. -/
def validate_ror (ror : List Char) : Option (List Char) :=
  let s := stripAny [strHttpSS ++ strRorOrg, strHttpsSS ++ strRorOrg] ror
  if decide (s.length = 9)
      && ((s.getD 0 ' ') == '0')
      && ((s.drop 1).take 6).all isLowerAlnumCh
      && (s.drop 7).all Char.isDigit
  then some s else none

/-- The six concrete wrappers generated by
`(?:(?:http|https)://(?:(?:www)?\.)?grid\.ac/)?`. -/
def gridPres : List (List Char) :=
  [strHttpSS ++ strGridAc, strHttpSS ++ ['.'] ++ strGridAc, strHttpSS ++ strWwwDot ++ strGridAc,
   strHttpsSS ++ strGridAc, strHttpsSS ++ ['.'] ++ strGridAc, strHttpsSS ++ strWwwDot ++ strGridAc]

/-- `validate_grid` of `utils.rs`, embedding
`^(?:(?:http|https)://(?:(?:www)?\.)?grid\.ac/)?(?:institutes/)?(grid\.[0-9]+\.[a-f0-9]{1,2})$`. -/
def validate_grid (grid : List Char) : Option (List Char) :=
  let s := stripOpt strInstitutes (stripAny gridPres grid)
  match stripPre strGridDot s with
  | none => none
  | some rest =>
    let k := (rest.takeWhile Char.isDigit).length
    match rest.drop k with
    | '.' :: tail =>
      if decide (1 ≤ k) && (decide (tail.length = 1) || decide (tail.length = 2))
          && tail.all isHexLowerCh
      then some s else none
    | _ => none

/-- `validate_wikidata` of `utils.rs`, embedding
`^(?:(?:http|https)://(?:(?:www)?\.)?wikidata\.org/wiki/)?(Q\d+)$`. -/
def validate_wikidata (wikidata : List Char) : Option (List Char) :=
  let s := stripAny
    [strHttpSS ++ strWikidataWiki, strHttpSS ++ ['.'] ++ strWikidataWiki,
     strHttpSS ++ strWwwDot ++ strWikidataWiki,
     strHttpsSS ++ strWikidataWiki, strHttpsSS ++ ['.'] ++ strWikidataWiki,
     strHttpsSS ++ strWwwDot ++ strWikidataWiki] wikidata
  match s with
  | 'Q' :: ds => if !ds.isEmpty && ds.all Char.isDigit then some s else none
  | _ => none

/-- One optional `[ -]` separator (the following pattern is always a digit
class, so a present separator must be consumed). -/
def stripSep1 (s : List Char) : List Char :=
  match s with
  | c :: rest => if isSepCh c then rest else s
  | [] => []

/-- The ISNI payload `0000[ -]?00\d{2}[ -]?\d{4}[ -]?\d{3}[0-9X]+`. -/
def isniPayloadOk (s : List Char) : Bool :=
  match stripPre ['0', '0', '0', '0'] s with
  | none => false
  | some s1 =>
    match stripPre ['0', '0'] (stripSep1 s1) with
    | none => false
    | some s2 =>
      match s2 with
      | d1 :: d2 :: r1 =>
        d1.isDigit && d2.isDigit &&
        (match stripSep1 r1 with
         | e1 :: e2 :: e3 :: e4 :: r2 =>
           [e1, e2, e3, e4].all Char.isDigit &&
           (match stripSep1 r2 with
            | f1 :: f2 :: f3 :: r3 =>
              [f1, f2, f3].all Char.isDigit && !r3.isEmpty
                && r3.all (fun c => c.isDigit || c == 'X')
            | _ => false)
         | _ => false)
      | _ => false

/-- The regex-match stage of `validate_isni`:
`^(?:(?:http|https)://(?:(?:www)?\.)?isni\.org/)?(?:isni/)?(payload)$`,
returning the captured payload before the ORCID-range exclusion. -/
def isniCapture (isni : List Char) : Option (List Char) :=
  let s := stripAny
    [strHttpSS ++ strIsniOrg, strHttpSS ++ ['.'] ++ strIsniOrg,
     strHttpSS ++ strWwwDot ++ strIsniOrg,
     strHttpsSS ++ strIsniOrg, strHttpsSS ++ ['.'] ++ strIsniOrg,
     strHttpsSS ++ strWwwDot ++ strIsniOrg] isni
  let s := stripOpt strIsniSlash s
  if isniPayloadOk s then some s else none

/-- `validate_isni` of `utils.rs`: regex match, then reject payloads whose
cleaned digit string lies in a reserved ORCID range. -/
def validate_isni (isni : List Char) : Option (List Char) :=
  match isniCapture isni with
  | none => none
  | some m =>
    let clean_match := m.filter (fun c => !(c == ' ') && !(c == '-'))
    if check_orcid_number_range clean_match then none else some m

/-- `validate_issn` of `utils.rs`, embedding
`^(?:https://portal\.issn\.org/resource/ISSN/)?(\d{4}\-\d{3}(\d|x|X))$`. -/
def validate_issn (issn : List Char) : Option (List Char) :=
  let s := stripOpt strIssnPortal issn
  if decide (s.length = 9)
      && (s.take 4).all Char.isDigit
      && ((s.getD 4 ' ') == '-')
      && ((s.drop 5).take 3).all Char.isDigit
      && (let c := s.getD 8 ' '; c.isDigit || c == 'x' || c == 'X')
  then some s else none

/-! ## URL handling -/

/-- The decomposition of a parsed URL that `validate_url` consumes:
scheme, host, serialized path, and the full serialization used by the
disallowed-fragment check. -/
structure Url where
  scheme : List Char
  host : Option (List Char)
  path : List Char
  full : List Char
deriving DecidableEq, Repr

/-- Split a string at the first `"://"`. -/
def splitScheme : List Char → Option (List Char × List Char)
  | [] => none
  | ':' :: '/' :: '/' :: rest => some ([], rest)
  | c :: rest => (splitScheme rest).map (fun p => (c :: p.1, p.2))

/-- Models `url::Url::parse` for the absolute `scheme://host/path` URLs
exercised in this development (nonempty alphabetic scheme, nonempty host,
no userinfo/port/query/fragment).  Strings without `"://"` are rejected,
as the url crate rejects relative URLs without a base; an absent path
serialises as `/` for the special schemes used here. -/
def parseUrl (s : List Char) : Option Url :=
  match splitScheme s with
  | none => none
  | some (sch, rest) =>
    if sch.isEmpty || !sch.all isAlphaCh then none
    else
      let host := rest.takeWhile (fun c => !(c == '/'))
      let path := rest.dropWhile (fun c => !(c == '/'))
      if host.isEmpty then none
      else some ⟨sch.map asciiLower, some (host.map asciiLower),
                 if path.isEmpty then ['/'] else path, s⟩

/-- Models Rust's `str::split(sep)`: every separator occurrence yields a
segment boundary, and empty segments are kept. -/
def splitOnCh (sep : Char) : List Char → List (List Char)
  | [] => [[]]
  | c :: rest =>
    if c = sep then [] :: splitOnCh sep rest
    else
      match splitOnCh sep rest with
      | [] => [[c]]
      | seg :: segs => (c :: seg) :: segs

/-- Substring containment, for the disallowed-fragment check. -/
def containsSub (pat : List Char) : List Char → Bool
  | [] => pat.isEmpty
  | c :: rest => pat.isPrefixOf (c :: rest) || containsSub pat rest

/-- `has_disallowed_fragments` of `utils.rs`. -/
def has_disallowed_fragments (url : Url) : Bool :=
  containsSub strOriginFrag url.full || containsSub strJsessionFrag url.full

/-- `is_rogue_scholar_url` of `utils.rs`. -/
def is_rogue_scholar_url (url : Url) : Bool :=
  url.scheme == strHttps && url.host == some strRogueHost

/-- `is_valid_rogue_scholar_post` of `utils.rs`. -/
def is_valid_rogue_scholar_post (path_segments : List (List Char)) : Bool :=
  if decide (2 ≤ path_segments.length) && (path_segments.getD 1 [] == strPosts) then
    if path_segments.length = 3 then (validate_uuid (path_segments.getD 2 [])).isSome
    else if path_segments.length = 4 then
      (validate_doi (path_segments.getD 2 [] ++ '/' :: path_segments.getD 3 [])).isSome
    else false
  else false

/-- `validate_url` of `utils.rs`: the returned string is `"DOI"`,
`"JSONFEEDID"`, `"URL"`, or empty. -/
def validate_url (s : List Char) : List Char :=
  if (validate_doi s).isSome then tagDOI
  else
    match parseUrl s with
    | none => []
    | some url =>
      if has_disallowed_fragments url then []
      else if is_rogue_scholar_url url then
        (if is_valid_rogue_scholar_post (splitOnCh '/' url.path) then tagJSONFEEDID else [])
      else if url.scheme == strHttp || url.scheme == strHttps then tagURL
      else []

/-! ## Classifier and decode dispatcher -/

/-- `validate_id` of `utils.rs`: try the recognisers in source order and
return the first match; any non-empty `validate_url` result is collapsed
to the tag `"URL"`. -/
def validate_id (id : List Char) : List Char × List Char :=
  match validate_crossref_funder_id id with
  | some fundref => (fundref, tagFunder)
  | none =>
  match validate_doi id with
  | some doi => (doi, tagDOI)
  | none =>
  match validate_uuid id with
  | some uuid => (uuid, tagUUID)
  | none =>
  match validate_rid id with
  | some rid => (rid, tagRID)
  | none =>
  match validate_orcid id with
  | some orcid => (orcid, tagORCID)
  | none =>
  match validate_ror id with
  | some ror => (ror, tagROR)
  | none =>
  match validate_grid id with
  | some grid => (grid, tagGRID)
  | none =>
  match validate_wikidata id with
  | some wikidata => (wikidata, tagWikidata)
  | none =>
  match validate_isni id with
  | some isni => (isni, tagISNI)
  | none =>
  match validate_issn id with
  | some issn => (issn, tagISSN)
  | none =>
    if !(validate_url id).isEmpty then (id, tagURL) else ([], [])

/-- The two error strings of `validate_mod11_2` (the text itself is not
modelled). -/
inductive Mod11Err where
  | invalidChars
  | invalidChecksum
deriving DecidableEq, Repr

/-- The body loop of `validate_mod11_2`: `m = ((m + d) * 2) % 11` per
digit; `none` models the panic of `c.to_digit(10).unwrap()` on a
non-digit (i.e. `'X'`) body character. -/
def mod11Body (m : Nat) : List Char → Option Nat
  | [] => some m
  | c :: rest => if c.isDigit then mod11Body (((m + (c.toNat - 48)) * 2) % 11) rest else none

/-- `validate_mod11_2` of `utils.rs`.  `none` models a Rust panic: on empty
input `chars().last().unwrap()` panics, and a body character outside `0-9`
(only `'X'` survives the first guard) panics in `to_digit(10).unwrap()`.
The running value `m` stays in `0..=10`, so the `i32` expression
`(12 - m) % 11` agrees with the `Nat` one. -/
def validate_mod11_2 (input : List Char) : Option (Except Mod11Err Unit) :=
  if !input.all (fun c => c.isDigit || c == 'X') then some (.error .invalidChars)
  else
    match input.getLast? with
    | none => none
    | some checksum_char =>
      match mod11Body 0 input.dropLast with
      | none => none
      | some m =>
        let check_value := (12 - m) % 11
        let expected_char := if check_value = 10 then 'X' else Char.ofNat (48 + check_value)
        if checksum_char = expected_char then some (.ok ()) else some (.error .invalidChecksum)

/-- Models `str::parse::<i64>` on the digit strings reaching it here (an
all-digit string fitting in `i64`; a sign never occurs in this data). -/
def parseI64 (s : List Char) : Option Int :=
  if s.isEmpty || !s.all Char.isDigit then none
  else
    let v := s.foldl (fun a c => a * 10 + (c.toNat - 48)) 0
    if v ≤ 9223372036854775807 then some (Int.ofNat v) else none

/-- The error cases of `decode_id` (rendered as formatted strings in Rust;
the structure, not the text, is modelled). -/
inductive DecodeIdError where
  | invalidDoiFormat
  | crockford (e : CrockfordError)
  | orcidChecksum (e : Mod11Err)
  | orcidParse
  | notRecognized
deriving DecidableEq, Repr

/-- `decode_id` of `utils.rs` (`decode_identifier` in the specification).
`none` models a Rust panic propagated from `validate_mod11_2`. -/
def decode_id (id : List Char) : Option (Except DecodeIdError Int) :=
  let p := validate_id id
  let identifier := p.1
  if p.2 == tagDOI then
    let parts := splitOnCh '/' identifier
    if parts.length < 2 then some (.error .invalidDoiFormat)
    else some ((decode (parts.getD 1 []) true).mapError .crockford)
  else if p.2 == tagROR then
    some ((decode identifier true).mapError .crockford)
  else if p.2 == tagRID then
    some ((decode identifier true).mapError .crockford)
  else if p.2 == tagORCID then
    let cleaned := identifier.filter (fun c => !(c == '-'))
    match validate_mod11_2 cleaned with
    | none => none
    | some (.error e) => some (.error (.orcidChecksum e))
    | some (.ok _) =>
      match parseI64 cleaned.dropLast with
      | some n => some (.ok n)
      | none => some (.error .orcidParse)
  else some (.error .notRecognized)

/-! ## Concrete inputs used by the claim theorems -/

/-- `10.13039/501100000011`, the Crossref-Funder-ID/DOI-ambiguous input. -/
def exFunder : List Char := strFunderPre ++ ['5', '0', '1', '1', '0', '0', '0', '0', '0', '0', '1', '1']

/-- The DOI `10.54900/d3ck1-skq19` of the specification's dispatcher example. -/
def exDoiSuffix : List Char := ['d', '3', 'c', 'k', '1', '-', 's', 'k', 'q', '1', '9']
def exDoi : List Char := ['1', '0', '.', '5', '4', '9', '0', '0', '/'] ++ exDoiSuffix

/-- An ORCID-shaped input with `'X'` among the body characters. -/
def exOrcidX : List Char :=
  ['0', '0', '0', '0', '-', '0', '0', '0', '1', '-', '5', '0', '0', '0', '-', '0', '0', '0', 'X', 'X']

/-- `0000000150000008`: lexically ISNI-shaped, inside the ORCID range. -/
def exIsni : List Char :=
  ['0', '0', '0', '0', '0', '0', '0', '1', '5', '0', '0', '0', '0', '0', '0', '8']

/-- A UUID-v4-shaped string. -/
def exUuid : List Char :=
  ['7', '8', 'f', 'a', '0', 'b', '9', 'a', '-', '1', 'b', '9', 'a', '-', '4', 'a', '7', '1',
   '-', '9', '6', '4', '7', '-', '6', 'a', '5', 'f', '3', 'a', '6', '2', 'e', '8', '9', 'b']

/-- `https://api.rogue-scholar.org/posts/`. -/
def exRoguePre : List Char := strHttpsSS ++ strRogueHost ++ '/' :: strPosts ++ ['/']

/-- A Rogue-Scholar post URL with a UUID path. -/
def exRogueUuid : List Char := exRoguePre ++ exUuid

/-- A Rogue-Scholar post URL with a DOI path. -/
def exRogueDoi : List Char := exRoguePre ++ exDoi

/-! ## Helper definitions used by the verification -/

/-- The payload part of `encode`: `"0"` for zero, else the base32 digits. -/
def payloadFull (n : Nat) : List Char := if n = 0 then ['0'] else base32digits n

/-- `generate_checksum` on a natural number, in `Nat`. -/
def gcNat (n : Nat) : Nat := 98 - (100 * n) % 97

/-- The ordered recogniser table of the classifier, as the specification
lists it. -/
def idMatchers : List ((List Char → Option (List Char)) × List Char) :=
  [(validate_crossref_funder_id, tagFunder), (validate_doi, tagDOI),
   (validate_uuid, tagUUID), (validate_rid, tagRID), (validate_orcid, tagORCID),
   (validate_ror, tagROR), (validate_grid, tagGRID), (validate_wikidata, tagWikidata),
   (validate_isni, tagISNI), (validate_issn, tagISSN)]

/-- First-match-wins dispatch over a recogniser table. -/
def firstMatch (ms : List ((List Char → Option (List Char)) × List Char)) (id : List Char) :
    Option (List Char × List Char) :=
  match ms with
  | [] => none
  | (f, t) :: rest =>
    match f id with
    | some c => some (c, t)
    | none => firstMatch rest id

/-- The piece of a DOI that `decode_id` actually decodes, described
directly: the segment between the first `'/'` and the next `'/'` (or the
end of the string). -/
def secondSegment (l : List Char) : List Char :=
  ((l.dropWhile (fun c => !(c == '/'))).drop 1).takeWhile (fun c => !(c == '/'))

/-- The per-character alphabet index used by the pure Horner value. -/
def charIdxD (c : Char) : Nat := (charIndex c).getD 0

/-- The pure Horner value of an all-alphabet character list. -/
def valNat (l : List Char) : Nat := l.foldl (fun a c => a * 32 + charIdxD c) 0

example : validate_crossref_funder_id exFunder =
    some ['5', '0', '1', '1', '0', '0', '0', '0', '0', '0', '1', '1'] := by decide
example : validate_id exFunder =
    (['5', '0', '1', '1', '0', '0', '0', '0', '0', '0', '1', '1'], tagFunder) := by decide
example : validate_doi exDoi = some exDoi := by decide
example : validate_id exDoi = (exDoi, tagDOI) := by decide
example : decode exDoiSuffix true = .error (.InvalidChecksum exDoiSuffix 19) := by decide
example : decode_id exDoi =
    some (.error (.crockford (.InvalidChecksum exDoiSuffix 19))) := by decide
example : validate_orcid exOrcidX = some exOrcidX := by decide
example : validate_id exOrcidX = (exOrcidX, tagORCID) := by decide
example : decode_id exOrcidX = none := by decide
example : isniCapture exIsni = some exIsni := by decide
example : validate_isni exIsni = none := by decide
example : validate_uuid exUuid = some exUuid := by decide
example : validate_url exRogueUuid = tagJSONFEEDID := by decide
example : validate_id exRogueUuid = (exRogueUuid, tagURL) := by decide
example : validate_url exRogueDoi = tagJSONFEEDID := by decide
example : decode [] false = .ok 0 := by decide
example : decode ['9', '8'] true = .ok 0 := by decide
example : decode ['0', 'a', '8'] true =
    .error (.InvalidChecksumFormat ['a', '8']) := by decide
example : decode ['-', '9', '8'] true = .ok 0 := by decide
example : encode 62 0 0 true = ['1', 'y', '0', '9'] := by decide
example : decode ['1', 'y', '+', '9'] true = .ok 62 := by decide

example : encode 12345 0 0 false = ['c', '1', 's'] := by decide
example : decode ['c', '1', 's'] false = .ok 12345 := by decide

/-! ## Codec lemmas -/

theorem base32Aux_stable (n : Nat) : ∀ f1 f2 : Nat, n ≤ f1 → n ≤ f2 →
    base32Aux f1 n = base32Aux f2 n := by
  induction n using Nat.strong_induction_on with
  | _ n ih =>
    intro f1 f2 h1 h2
    match f1, f2 with
    | 0, 0 => rfl
    | 0, f2 + 1 =>
      have hn : n = 0 := Nat.le_zero.mp h1
      subst hn; simp [base32Aux]
    | f1 + 1, 0 =>
      have hn : n = 0 := Nat.le_zero.mp h2
      subst hn; simp [base32Aux]
    | f1 + 1, f2 + 1 =>
      by_cases hn : n = 0
      · subst hn; simp [base32Aux]
      · have hdiv : n / 32 < n := Nat.div_lt_self (Nat.pos_of_ne_zero hn) (by norm_num)
        simp only [base32Aux, if_neg hn]
        rw [ih (n / 32) hdiv f1 f2
          (Nat.lt_succ_iff.mp (lt_of_lt_of_le hdiv h1))
          (Nat.lt_succ_iff.mp (lt_of_lt_of_le hdiv h2))]

theorem base32digits_pos (n : Nat) (hn : n ≠ 0) :
    base32digits n = base32digits (n / 32) ++ [encChar (n % 32)] := by
  have hpos : 0 < n := Nat.pos_of_ne_zero hn
  have hdiv : n / 32 < n := Nat.div_lt_self hpos (by norm_num)
  obtain ⟨m, rfl⟩ : ∃ m, n = m + 1 := ⟨n - 1, (Nat.succ_pred_eq_of_pos hpos).symm⟩
  show base32Aux (m + 1) (m + 1) = _
  rw [show base32Aux (m + 1) (m + 1) =
      base32Aux m ((m + 1) / 32) ++ [encChar ((m + 1) % 32)] by simp [base32Aux, hn]]
  rw [base32Aux_stable ((m + 1) / 32) m ((m + 1) / 32) (Nat.lt_succ_iff.mp hdiv) le_rfl]
  rfl

theorem base32digits_mem (n : Nat) : ∀ c ∈ base32digits n, ∃ d : Fin 32, c = encChar d.val := by
  induction n using Nat.strong_induction_on with
  | _ n ih =>
    by_cases hn : n = 0
    · subst hn; intro c hc; cases hc
    · rw [base32digits_pos n hn]
      intro c hc
      rcases List.mem_append.mp hc with h | h
      · exact ih (n / 32) (Nat.div_lt_self (Nat.pos_of_ne_zero hn) (by norm_num)) c h
      · rw [List.mem_singleton.mp h]
        exact ⟨⟨n % 32, Nat.mod_lt _ (by norm_num)⟩, rfl⟩

theorem base32digits_ne_nil (n : Nat) (hn : n ≠ 0) : base32digits n ≠ [] := by
  rw [base32digits_pos n hn]
  simp

theorem payloadFull_ne_nil (n : Nat) : payloadFull n ≠ [] := by
  by_cases hn : n = 0
  · subst hn; simp [payloadFull]
  · simp only [payloadFull, if_neg hn]
    exact base32digits_ne_nil n hn

theorem encChar_index : ∀ d : Fin 32, charIndex (encChar d.val) = some d.val := by decide

theorem encChar_norm : ∀ d : Fin 32, normChar (encChar d.val) = some (encChar d.val) := by decide

theorem decodeLoop_append (acc : Int) (l1 l2 : List Char) :
    decodeLoop acc (l1 ++ l2) =
      match decodeLoop acc l1 with
      | .ok a => decodeLoop a l2
      | .error e => .error e := by
  induction l1 generalizing acc with
  | nil => simp [decodeLoop]
  | cons c rest ih =>
    simp only [List.cons_append, decodeLoop]
    cases charIndex c with
    | some pos => exact ih _
    | none => rfl

theorem decodeLoop_base32 (n : Nat) : ∀ acc : Int,
    decodeLoop acc (base32digits n) =
      .ok (acc * (32 : Int) ^ (base32digits n).length + (n : Int)) := by
  induction n using Nat.strong_induction_on with
  | _ n ih =>
    intro acc
    by_cases hn : n = 0
    · subst hn
      simp [show base32digits 0 = [] from rfl, decodeLoop]
    · rw [base32digits_pos n hn, decodeLoop_append,
        ih (n / 32) (Nat.div_lt_self (Nat.pos_of_ne_zero hn) (by norm_num)) acc]
      have hd : n % 32 < 32 := Nat.mod_lt _ (by norm_num)
      have hidx := encChar_index ⟨n % 32, hd⟩
      simp only [decodeLoop, hidx, List.length_append, List.length_singleton]
      congr 1
      have hdm : (n : Int) = ((n / 32 : Nat) : Int) * 32 + ((n % 32 : Nat) : Int) := by
        omega
      rw [pow_succ, hdm]
      ring

theorem decodeLoop_payloadFull (n : Nat) : decodeLoop 0 (payloadFull n) = .ok (n : Int) := by
  by_cases hn : n = 0
  · subst hn; decide
  · simp only [payloadFull, if_neg hn]
    have := decodeLoop_base32 n 0
    simpa using this

theorem normalize_append (a b : List Char) :
    normalize (a ++ b) = normalize a ++ normalize b := by
  simp [normalize, List.filterMap_append]

theorem normalize_fixed (l : List Char) (h : ∀ c ∈ l, normChar c = some c) :
    normalize l = l := by
  induction l with
  | nil => rfl
  | cons c rest ih =>
    simp only [normalize, List.filterMap_cons, h c (List.mem_cons_self c rest)]
    exact congrArg (c :: ·) (ih (fun x hx => h x (List.mem_cons_of_mem c hx)))

theorem payloadFull_norm (n : Nat) : ∀ c ∈ payloadFull n, normChar c = some c := by
  by_cases hn : n = 0
  · subst hn; decide
  · simp only [payloadFull, if_neg hn]
    intro c hc
    obtain ⟨d, rfl⟩ := base32digits_mem n c hc
    exact encChar_norm d

theorem format02_facts : ∀ v : Fin 99, 2 ≤ v.val →
    (format02 (Int.ofNat v.val)).length = 2 ∧
    parseU8 (format02 (Int.ofNat v.val)) = some v.val ∧
    (∀ c ∈ format02 (Int.ofNat v.val), normChar c = some c ∧ c.isDigit = true) ∧
    ((format02 (Int.ofNat v.val)).getD 0 ' ').toNat = 48 + v.val / 10 ∧
    ((format02 (Int.ofNat v.val)).getD 1 ' ').toNat = 48 + v.val % 10 ∧
    format02 (Int.ofNat v.val) =
      [(format02 (Int.ofNat v.val)).getD 0 ' ', (format02 (Int.ofNat v.val)).getD 1 ' '] := by
  decide

theorem gcNat_bounds (n : Nat) : 2 ≤ gcNat n ∧ gcNat n ≤ 98 := by
  have h : (100 * n) % 97 < 97 := Nat.mod_lt _ (by norm_num)
  unfold gcNat
  omega

theorem wrap64_eq_self (x : Int) (h1 : -9223372036854775808 ≤ x)
    (h2 : x < 9223372036854775808) : wrap64 x = x := by
  unfold wrap64
  rw [Int.emod_eq_of_lt (by omega) (by omega)]
  omega

theorem generate_checksum_natCast (n : Nat) (h : 100 * n ≤ 9223372036854775807) :
    generate_checksum (n : Int) = (gcNat n : Int) := by
  unfold generate_checksum gcNat
  have h1 : (100 : Int) * (n : Int) = ((100 * n : Nat) : Int) := by push_cast; ring
  have hw : wrap64 ((100 * n : Nat) : Int) = ((100 * n : Nat) : Int) := by
    have hc : ((100 * n : Nat) : Int) ≤ 9223372036854775807 := by exact_mod_cast h
    have hc0 : (0 : Int) ≤ ((100 * n : Nat) : Int) := Int.natCast_nonneg _
    exact wrap64_eq_self _ (by omega) (by omega)
  have h2 : Int.tmod ((100 * n : Nat) : Int) 97 = (((100 * n) % 97 : Nat) : Int) := by
    rw [Int.tmod_eq_emod (by positivity) (by norm_num)]
    push_cast
    rfl
  rw [h1, hw, h2]
  have h3 : (100 * n) % 97 < 97 := Nat.mod_lt _ (by norm_num)
  omega

theorem encode_checksum_eq (n : Nat) :
    encode (n : Int) 0 0 true = payloadFull n ++ format02 (generate_checksum (n : Int)) := by
  by_cases hn : n = 0
  · subst hn; rfl
  · have h1 : ((n : Int) = 0) = False := by simp [hn]
    simp [encode, payloadFull, h1, hn, Int.toNat_natCast]

/-- C2, amended.  Round-trip with checksum on the overflow-free domain: for
every `n ≥ 0` with `100 * n ≤ i64::MAX` (so the `i64` product inside
`generate_checksum` does not wrap),
`decode (encode n 0 0 true) true = Ok n`.  The original claim, stated for
every `n ≥ 0`, is false at `n` past `i64::MAX / 100`: see the
counterexample below. -/
theorem c2_roundtrip_with_checksum (n : Nat)
    (hno : 100 * n ≤ 9223372036854775807) :
    decode (encode (n : Int) 0 0 true) true = .ok (n : Int) := by
  rw [encode_checksum_eq, generate_checksum_natCast n hno]
  have hb := gcNat_bounds n
  have hv : gcNat n < 99 := by omega
  obtain ⟨hflen0, hparse, hchars, -, -, -⟩ := format02_facts ⟨gcNat n, hv⟩ (by exact hb.1)
  have hofnat : Int.ofNat (gcNat n) = (gcNat n : Int) := rfl
  rw [hofnat] at hflen0 hparse hchars
  have hnorm : normalize (payloadFull n ++ format02 (gcNat n : Int)) =
      payloadFull n ++ format02 (gcNat n : Int) := by
    apply normalize_fixed
    intro c hc
    rcases List.mem_append.mp hc with h | h
    · exact payloadFull_norm n c h
    · exact (hchars c h).1
  have hflen : (format02 ((gcNat n : Nat) : Int)).length = 2 := hflen0
  have hplen : 1 ≤ (payloadFull n).length :=
    List.length_pos.mpr (payloadFull_ne_nil n)
  have hslen : (payloadFull n ++ format02 (gcNat n : Int)).length =
      (payloadFull n).length + 2 := by
    rw [List.length_append, hflen]
  have hparse2 : parseU8 (format02 ((gcNat n : Nat) : Int)) = some (gcNat n) := hparse
  have hlt : ¬ ((payloadFull n).length + 2 < 2) := by omega
  have hval : validate (n : Int) (Int.ofNat (gcNat n)) = true := by
    simp [validate, generate_checksum_natCast n hno]
  simp only [decode, hnorm, hslen, if_true]
  rw [if_neg hlt]
  simp only [Nat.add_sub_cancel, List.drop_left, List.take_left, hparse2,
    decodeLoop_payloadFull, hval, if_true]

theorem c2_roundtrip_with_checksum_witness :
    100 * 12345 ≤ 9223372036854775807 ∧
      decode (encode ((12345 : Nat) : Int) 0 0 true) true = .ok ((12345 : Nat) : Int) :=
  ⟨by norm_num, c2_roundtrip_with_checksum 12345 (by norm_num)⟩

/-- C2 counterexample.  At `n = 92233720368547759` (the least `n` with
`100 * n > i64::MAX`) the `i64` product inside `generate_checksum` wraps to
the negative value `-9223372036854775716`, the checksum becomes `182` and
is embedded as *three* digits; decoding then reads back only the last two
characters `"82"` as the checksum and absorbs the stray `'1'` into the
payload, so `decode (encode n 0 0 true) true` returns
`Err(InvalidChecksum)`, not `Ok n` (on a debug build the overflow panics
instead — either way the round-trip claim fails at this input). -/
theorem c2_counterexample :
    generate_checksum (92233720368547759 : Int) = 182 ∧
    (format02 (generate_checksum (92233720368547759 : Int))).length = 3 ∧
    decode (encode (92233720368547759 : Int) 0 0 true) true =
      .error (.InvalidChecksum (encode (92233720368547759 : Int) 0 0 true) 82) := by
  decide
example : generate_checksum 12345 = 20 := by decide
example : encode 12345 0 0 true = ['c', '1', 's', '2', '0'] := by decide
example : decode ['c', '1', 's', '2', '0'] true = .ok 12345 := by decide
example : encode 0 0 0 true = ['0', '9', '8'] := by decide
example : generate_checksum 0 = 98 := by decide
example : generate_checksum (-1) = 101 := by decide
example : encode 1234567 3 0 false = ['1', '5', 'n', '-', 'm', '7'] := by decide
example : decode ['1', '5', 'n', '-', 'm', '7'] false = .ok 1234567 := by decide

theorem normalize_splitAux : ∀ (fuel k : Nat) (l : List Char), 1 ≤ k →
    normalize (splitAux fuel k l) = normalize l := by
  intro fuel
  induction fuel with
  | zero => intro k l _; rfl
  | succ f ih =>
    intro k l hk
    match l with
    | [] => rfl
    | c :: rest =>
      show normalize (if (c :: rest).length ≤ k then c :: rest
        else (c :: rest).take k ++ '-' :: splitAux f k ((c :: rest).drop k)) = _
      by_cases hl : (c :: rest).length ≤ k
      · rw [if_pos hl]
      · rw [if_neg hl, normalize_append]
        have h2 : normalize ('-' :: splitAux f k ((c :: rest).drop k)) =
            normalize (splitAux f k ((c :: rest).drop k)) := by
          simp [normalize, List.filterMap_cons, show normChar '-' = none from rfl]
        rw [h2, ih k _ hk, ← normalize_append, List.take_append_drop]

theorem encode_nochecksum_eq (n k : Nat) :
    encode (n : Int) k 0 false =
      if 0 < k then splitEvery k (payloadFull n) else payloadFull n := by
  by_cases hn : n = 0
  · subst hn; rfl
  · have h1 : ((n : Int) = 0) = False := by simp [hn]
    simp [encode, payloadFull, h1, hn, Int.toNat_natCast]

/-- C4.  Round-trip without checksum, unaffected by dash grouping: for
every `n ≥ 0` and every `split_every = k ≥ 0`,
`decode (encode n k 0 false) false = Ok n`. -/
theorem c4_roundtrip_grouping (n k : Nat) :
    decode (encode (n : Int) k 0 false) false = .ok (n : Int) := by
  rw [encode_nochecksum_eq]
  have hnormP : normalize (payloadFull n) = payloadFull n :=
    normalize_fixed _ (payloadFull_norm n)
  by_cases hk : 0 < k
  · rw [if_pos hk]
    show decodeLoop 0 (normalize (splitEvery k (payloadFull n))) = _
    rw [show normalize (splitEvery k (payloadFull n)) = normalize (payloadFull n) from
      normalize_splitAux _ _ _ hk]
    rw [hnormP, decodeLoop_payloadFull]
  · rw [if_neg hk]
    show decodeLoop 0 (normalize (payloadFull n)) = _
    rw [hnormP, decodeLoop_payloadFull]

/-! ## Claim theorems: classifier and dispatcher -/

/-- C1.  The claim states that every decode path is total and no input can
panic.  The code violates it: `decode_identifier` on the ORCID-shaped input
`0000-0001-5000-000XX` classifies it as ORCID (its regex allows `X` in the
final `[0-9X]+` block and its value lies in the reserved range by string
comparison), and `validate_mod11_2` then panics at
`c.to_digit(10).unwrap()` because `'X'` is among the body characters —
modelled here by `decode_id` returning `none`.  (`decode` itself can also
panic, on non-ASCII input such as `"éa"` with `checksum = true`, where
`&normalized[normalized.len() - 2..]` slices at a non-char-boundary byte;
that byte-level behaviour is outside this character-level model.)  This
theorem evaluates the modelled code at the failing input. -/
theorem c1_decode_identifier_panics :
    validate_id exOrcidX = (exOrcidX, tagORCID) ∧ decode_id exOrcidX = none := by decide

/-- C3 counterexample.  The claim puts `generate_checksum` in `1..=97`; at
the input `0` (where `100 * number` trivially cannot overflow) the value is
`98`, outside `1..=97`. -/
theorem c3_counterexample :
    generate_checksum 0 = 98 ∧ ¬ (1 ≤ generate_checksum 0 ∧ generate_checksum 0 ≤ 97) := by
  decide

/-- C3, amended.  For every `i64` input `number ≥ 0` for which
`100 * number` does not overflow, `generate_checksum number` lies in
`2..=98` (not `1..=97`), so its zero-padded decimal rendering is exactly
two digits.  (For negative inputs the truncated remainder makes the value
range up to `194`, up to three digits.) -/
theorem c3_checksum_range (n : Int) (h0 : 0 ≤ n)
    (hov : 100 * n ≤ 9223372036854775807) :
    2 ≤ generate_checksum n ∧ generate_checksum n ≤ 98 ∧
      (format02 (generate_checksum n)).length = 2 := by
  lift n to Nat using h0
  rw [generate_checksum_natCast n (by exact_mod_cast hov)]
  have hb := gcNat_bounds n
  refine ⟨by exact_mod_cast hb.1, by exact_mod_cast hb.2, ?_⟩
  have hv : gcNat n < 99 := by omega
  obtain ⟨hlen, -, -, -, -, -⟩ := format02_facts ⟨gcNat n, hv⟩ hb.1
  exact hlen

theorem c3_checksum_range_witness :
    2 ≤ generate_checksum 12345 ∧ generate_checksum 12345 ≤ 98 ∧
      (format02 (generate_checksum 12345)).length = 2 :=
  c3_checksum_range 12345 (by decide) (by decide)

/-- C9.  Every ISNI-shaped input whose 16-character cleaned value falls in
a reserved ORCID range (by decimal string comparison) is rejected by
`validate_isni`. -/
theorem c9_isni_orcid_exclusion (s m : List Char)
    (hm : isniCapture s = some m)
    (_hlen : (m.filter (fun c => !(c == ' ') && !(c == '-'))).length = 16)
    (hrange : check_orcid_number_range (m.filter (fun c => !(c == ' ') && !(c == '-'))) = true) :
    validate_isni s = none := by
  unfold validate_isni
  rw [hm]
  simp only [hrange, if_true]

theorem c9_isni_orcid_exclusion_witness :
    isniCapture exIsni = some exIsni ∧ validate_isni exIsni = none :=
  ⟨by decide, c9_isni_orcid_exclusion exIsni exIsni (by decide) (by decide) (by decide)⟩

/-- C10.  An empty payload decodes to zero: `decode "" false = Ok 0`, and
with `checksum = true` any input whose normalized form is exactly the
two-digit rendering of `generate_checksum 0` (i.e. `"98"`) returns `Ok 0`
as well. -/
theorem c10_empty_payload_zero :
    decode [] false = .ok 0 ∧
      (∀ s : List Char, normalize s = format02 (generate_checksum 0) →
        decode s true = .ok 0) := by
  refine ⟨by decide, ?_⟩
  intro s hs
  have h98 : format02 (generate_checksum 0) = ['9', '8'] := by decide
  rw [h98] at hs
  have hlt : ((['9', '8'] : List Char).length < 2) = False := by decide
  have hps : parseU8 ((['9', '8'] : List Char).drop ((['9', '8'] : List Char).length - 2)) =
      some 98 := by decide
  have hdl : decodeLoop 0 ((['9', '8'] : List Char).take ((['9', '8'] : List Char).length - 2)) =
      .ok 0 := by decide
  have hvl : validate 0 (Int.ofNat 98) = true := by decide
  simp only [decode, hs, hlt, if_false, hps, hdl, hvl, if_true]

theorem c10_empty_payload_zero_witness :
    decode ['9', '8'] true = .ok 0 :=
  c10_empty_payload_zero.2 ['9', '8'] (by decide)

/-- C8.  The classifier equals first-match-wins dispatch over the table
Crossref Funder ID, DOI, UUID, RID, ORCID, ROR, GRID, Wikidata, ISNI,
ISSN, with the URL fallback last; in particular `10.13039/501100000011`,
which matches both the Crossref-Funder-ID and the DOI pattern, is tagged
as Crossref Funder ID. -/
theorem c8_priority_order :
    (∀ id : List Char, validate_id id =
      match firstMatch idMatchers id with
      | some r => r
      | none => if !(validate_url id).isEmpty then (id, tagURL) else ([], [])) ∧
    validate_id exFunder =
      (['5', '0', '1', '1', '0', '0', '0', '0', '0', '0', '1', '1'], tagFunder) ∧
    validate_doi exFunder = some exFunder := by
  refine ⟨?_, by decide, by decide⟩
  intro id
  cases h1 : validate_crossref_funder_id id with
  | some v => simp [validate_id, firstMatch, idMatchers, h1]
  | none =>
  cases h2 : validate_doi id with
  | some v => simp [validate_id, firstMatch, idMatchers, h1, h2]
  | none =>
  cases h3 : validate_uuid id with
  | some v => simp [validate_id, firstMatch, idMatchers, h1, h2, h3]
  | none =>
  cases h4 : validate_rid id with
  | some v => simp [validate_id, firstMatch, idMatchers, h1, h2, h3, h4]
  | none =>
  cases h5 : validate_orcid id with
  | some v => simp [validate_id, firstMatch, idMatchers, h1, h2, h3, h4, h5]
  | none =>
  cases h6 : validate_ror id with
  | some v => simp [validate_id, firstMatch, idMatchers, h1, h2, h3, h4, h5, h6]
  | none =>
  cases h7 : validate_grid id with
  | some v => simp [validate_id, firstMatch, idMatchers, h1, h2, h3, h4, h5, h6, h7]
  | none =>
  cases h8 : validate_wikidata id with
  | some v => simp [validate_id, firstMatch, idMatchers, h1, h2, h3, h4, h5, h6, h7, h8]
  | none =>
  cases h9 : validate_isni id with
  | some v => simp [validate_id, firstMatch, idMatchers, h1, h2, h3, h4, h5, h6, h7, h8, h9]
  | none =>
  cases h10 : validate_issn id with
  | some v =>
    simp [validate_id, firstMatch, idMatchers, h1, h2, h3, h4, h5, h6, h7, h8, h9, h10]
  | none =>
    simp [validate_id, firstMatch, idMatchers, h1, h2, h3, h4, h5, h6, h7, h8, h9, h10]

/-- C6 counterexample.  For a Rogue-Scholar post URL the inner recogniser
`validate_url` does return `"JSONFEEDID"`, but the classifier
`validate_id` collapses every non-empty `validate_url` result to the tag
`"URL"`, so the assigned type tag is `URL`, not `JSONFEEDID`. -/
theorem c6_counterexample :
    validate_url exRogueUuid = tagJSONFEEDID ∧
    validate_id exRogueUuid = (exRogueUuid, tagURL) ∧
    tagURL ≠ tagJSONFEEDID := by decide

/-- C6, amended.  For every https URL on host `api.rogue-scholar.org`
whose parsed path is `/posts/{uuid}` or `/posts/{doi-prefix}/{doi-suffix}`,
the URL recogniser `validate_url` returns `"JSONFEEDID"`; the top-level
classifier `validate_id`, however, tags such inputs as plain `"URL"`. -/
theorem c6_rogue_scholar_jsonfeedid :
    (∀ (s : List Char) (u : Url), parseUrl s = some u →
      validate_doi s = none →
      has_disallowed_fragments u = false →
      is_rogue_scholar_url u = true →
      is_valid_rogue_scholar_post (splitOnCh '/' u.path) = true →
      validate_url s = tagJSONFEEDID) ∧
    validate_id exRogueUuid = (exRogueUuid, tagURL) := by
  refine ⟨?_, by decide⟩
  intro s u hp hdoi hfrag hrogue hpost
  simp only [validate_url, hdoi, Option.isSome_none, Bool.false_eq_true, if_false, hp,
    hfrag, hrogue, hpost, if_true]

theorem c6_rogue_scholar_jsonfeedid_witness :
    validate_url exRogueDoi = tagJSONFEEDID ∧
    validate_id exRogueUuid = (exRogueUuid, tagURL) :=
  ⟨c6_rogue_scholar_jsonfeedid.1 exRogueDoi
      ⟨strHttps, some strRogueHost, ('/' :: strPosts) ++ '/' :: exDoi, exRogueDoi⟩
      (by decide) (by decide) (by decide) (by decide) (by decide),
   c6_rogue_scholar_jsonfeedid.2⟩

/-! ## The DOI branch of the dispatcher (C5) -/

theorem stripPre_eq (pre s r : List Char) (h : stripPre pre s = some r) : s = pre ++ r := by
  unfold stripPre at h
  by_cases hp : pre.isPrefixOf s
  · rw [if_pos hp] at h
    injection h with h'
    obtain ⟨t, rfl⟩ := List.isPrefixOf_iff_prefix.mp hp
    rw [← h', List.drop_left]
  · rw [if_neg hp] at h
    cases h

theorem splitOnCh_ne_nil (sep : Char) (l : List Char) : splitOnCh sep l ≠ [] := by
  match l with
  | [] => simp [splitOnCh]
  | c :: rest =>
    simp only [splitOnCh]
    by_cases h : c = sep
    · simp [h]
    · rw [if_neg h]
      cases hsp : splitOnCh sep rest <;> simp

theorem splitOnCh_head (sep : Char) (l : List Char) :
    (splitOnCh sep l).getD 0 [] = l.takeWhile (fun c => !(c == sep)) := by
  induction l with
  | nil => rfl
  | cons c rest ih =>
    simp only [splitOnCh, List.takeWhile]
    by_cases h : c = sep
    · subst h
      simp
    · have hb : (c == sep) = false := by simp [h]
      rw [if_neg h, hb]
      cases hsp : splitOnCh sep rest with
      | nil => exact absurd hsp (splitOnCh_ne_nil sep rest)
      | cons seg segs =>
        rw [hsp] at ih
        simp only [List.getD_cons_zero] at ih ⊢
        simp [ih]

theorem splitOnCh_append (sep : Char) (pre suf : List Char)
    (hpre : ∀ c ∈ pre, (c == sep) = false) :
    splitOnCh sep (pre ++ sep :: suf) = pre :: splitOnCh sep suf := by
  induction pre with
  | nil => simp [splitOnCh]
  | cons c p ih =>
    have hc : ¬ (c = sep) := by
      have := hpre c (List.mem_cons_self c p)
      simp at this
      exact this
    simp only [List.cons_append, splitOnCh, if_neg hc, List.append_eq]
    rw [ih (fun x hx => hpre x (List.mem_cons_of_mem c hx))]

theorem dropWhile_append_sep (sep : Char) (pre suf : List Char)
    (hpre : ∀ c ∈ pre, (c == sep) = false) :
    (pre ++ sep :: suf).dropWhile (fun c => !(c == sep)) = sep :: suf := by
  induction pre with
  | nil => simp [List.dropWhile]
  | cons c p ih =>
    have hc := hpre c (List.mem_cons_self c p)
    simp only [List.cons_append, List.dropWhile, hc, Bool.not_false]
    exact ih (fun x hx => hpre x (List.mem_cons_of_mem c hx))

theorem validate_doi_structure (id idf : List Char) (h : validate_doi id = some idf) :
    ∃ pre suf, idf = pre ++ '/' :: suf ∧ (∀ c ∈ pre, (c == '/') = false) := by
  unfold validate_doi at h
  set s := stripOpt strDoiColon (doiResolverStrip id) with hs
  by_cases hok : doiPayloadOk s = true
  case neg =>
    rw [if_neg hok] at h
    cases h
  rw [if_pos hok] at h
  injection h with h'
  subst h'
  unfold doiPayloadOk at hok
  cases hsp : stripPre strTenDot s with
  | none =>
    rw [hsp] at hok
    cases hok
  | some rest =>
    rw [hsp] at hok
    have hseq : s = strTenDot ++ rest := stripPre_eq _ _ _ hsp
    have hok2 : (match rest.drop (rest.takeWhile Char.isDigit).length with
        | c :: suf =>
          (c == '/')
            && (decide ((rest.takeWhile Char.isDigit).length = 4)
              || decide ((rest.takeWhile Char.isDigit).length = 5))
            && !suf.isEmpty && suf.all (fun x => !isSpaceCh x)
        | [] => false) = true := hok
    clear hok
    cases hd : rest.drop (rest.takeWhile Char.isDigit).length with
    | nil =>
      rw [hd] at hok2
      cases hok2
    | cons c suf =>
      rw [hd] at hok2
      simp only [Bool.and_eq_true, beq_iff_eq] at hok2
      obtain ⟨⟨⟨hc, -⟩, -⟩, -⟩ := hok2
      subst hc
      refine ⟨strTenDot ++ rest.take (rest.takeWhile Char.isDigit).length, suf, ?_, ?_⟩
      · rw [hseq, List.append_assoc]
        congr 1
        conv_lhs => rw [← List.take_append_drop (rest.takeWhile Char.isDigit).length rest]
        rw [hd]
      · intro x hx
        rcases List.mem_append.mp hx with hx | hx
        · fin_cases hx <;> rfl
        · have htw : rest.take (rest.takeWhile Char.isDigit).length =
              rest.takeWhile Char.isDigit :=
            (List.prefix_iff_eq_take.mp (List.takeWhile_prefix _)).symm
          rw [htw] at hx
          have hdig : Char.isDigit x = true := List.mem_takeWhile_imp hx
          cases h47 : (x == '/') with
          | false => rfl
          | true =>
            have hx47 : x = '/' := by simpa using h47
            subst hx47
            exact absurd hdig (by decide)

/-- C5, amended.  For every input classified as DOI, `decode_identifier`
splits the canonical form on `'/'` and Base32-decodes, with checksum
enabled, the segment between the first and the second `'/'` (not the
entire remainder of the suffix); moreover the specification's example
`decode_identifier "10.54900/d3ck1-skq19"` does not succeed: its embedded
checksum `19` differs from the payload's checksum `85`, so it fails with
`InvalidChecksum`. -/
theorem c5_doi_branch :
    (∀ (id idf : List Char), validate_id id = (idf, tagDOI) →
      decode_id id =
        some ((decode (secondSegment idf) true).mapError DecodeIdError.crockford)) ∧
    decode_id exDoi = some (.error (.crockford (.InvalidChecksum exDoiSuffix 19))) := by
  refine ⟨?_, by decide⟩
  intro id idf h
  have hdoi : validate_doi id = some idf := by
    unfold validate_id at h
    repeat' split at h
    all_goals injection h with ha hb
    all_goals
      first
        | exact absurd hb (by decide)
        | (subst ha; assumption)
  obtain ⟨pre, suf, hidf, hpre⟩ := validate_doi_structure id idf hdoi
  have hsplit := splitOnCh_append '/' pre suf hpre
  have hne := splitOnCh_ne_nil '/' suf
  have hseg : secondSegment idf = suf.takeWhile (fun c => !(c == '/')) := by
    unfold secondSegment
    rw [hidf, dropWhile_append_sep '/' pre suf hpre]
    rfl
  have hget : (pre :: splitOnCh '/' suf).getD 1 [] =
      suf.takeWhile (fun c => !(c == '/')) := by
    rw [List.getD_cons_succ]
    exact splitOnCh_head '/' suf
  have hlen : ¬ ((pre :: splitOnCh '/' suf).length < 2) := by
    have : 0 < (splitOnCh '/' suf).length := List.length_pos.mpr hne
    simp only [List.length_cons]
    omega
  have hsplit2 : splitOnCh '/' idf = pre :: splitOnCh '/' suf := by
    rw [hidf]
    exact hsplit
  simp only [decode_id, h, beq_self_eq_true, if_true, hsplit2]
  rw [if_neg hlen, hget, hseg]

theorem c5_doi_branch_witness :
    decode_id exDoi =
      some ((decode (secondSegment exDoi) true).mapError DecodeIdError.crockford) :=
  c5_doi_branch.1 exDoi exDoi (by decide)

/-- C5 counterexample.  Two concrete divergences from the claim as stated:
`10.54900/98/x` is a valid DOI whose suffix contains a second `'/'`;
`decode_identifier` decodes only `parts[1] = "98"` and returns `Ok 0`,
whereas decoding the entire suffix `"98/x"` errors — and the claim's own
example `decode_identifier "10.54900/d3ck1-skq19"` returns a checksum
error instead of succeeding. -/
theorem c5_counterexample :
    decode_id (['1', '0', '.', '5', '4', '9', '0', '0', '/', '9', '8', '/', 'x']) =
      some (.ok 0) ∧
    decode ['9', '8', '/', 'x'] true = .error (.InvalidChecksumFormat ['/', 'x']) ∧
    decode_id exDoi = some (.error (.crockford (.InvalidChecksum exDoiSuffix 19))) := by
  decide

/-! ## Checksum sensitivity (C7): supporting lemmas -/

theorem idxFrom_spec (c : Char) : ∀ (l : List Char) (i : Nat),
    idxFrom c l = some i → i < l.length ∧ l.getD i ' ' = c := by
  intro l
  induction l with
  | nil => intro i h; cases h
  | cons x rest ih =>
    intro i h
    unfold idxFrom at h
    by_cases hx : x = c
    · rw [if_pos hx] at h
      injection h with h'
      subst h'
      exact ⟨by simp, hx⟩
    · rw [if_neg hx] at h
      cases hif : idxFrom c rest with
      | none => rw [hif] at h; cases h
      | some i' =>
        rw [hif] at h
        injection h with h'
        subst h'
        obtain ⟨hlt, hget⟩ := ih i' hif
        exact ⟨by simpa using hlt, by simpa using hget⟩

theorem getD_append_left (l1 l2 : List Char) (j : Nat) (dflt : Char) (hj : j < l1.length) :
    (l1 ++ l2).getD j dflt = l1.getD j dflt := by
  induction l1 generalizing j with
  | nil => cases hj
  | cons a r ih =>
    cases j with
    | zero => rfl
    | succ j' =>
      simp only [List.cons_append, List.getD_cons_succ]
      exact ih j' (by simpa using hj)

theorem getD_append_right (l1 l2 : List Char) (j : Nat) (dflt : Char) (hj : l1.length ≤ j) :
    (l1 ++ l2).getD j dflt = l2.getD (j - l1.length) dflt := by
  induction l1 generalizing j with
  | nil => simp
  | cons a r ih =>
    cases j with
    | zero => simp at hj
    | succ j' =>
      simp only [List.cons_append, List.getD_cons_succ, List.length_cons]
      rw [ih j' (by simpa using hj)]
      congr 1
      omega

theorem set_append_left (l1 l2 : List Char) (j : Nat) (c : Char) (hj : j < l1.length) :
    (l1 ++ l2).set j c = l1.set j c ++ l2 := by
  induction l1 generalizing j with
  | nil => cases hj
  | cons a r ih =>
    cases j with
    | zero => rfl
    | succ j' =>
      simp only [List.cons_append, List.set, List.append_eq]
      rw [ih j' (by simpa using hj)]

theorem set_append_right (l1 l2 : List Char) (j : Nat) (c : Char) (hj : l1.length ≤ j) :
    (l1 ++ l2).set j c = l1 ++ l2.set (j - l1.length) c := by
  induction l1 generalizing j with
  | nil => simp
  | cons a r ih =>
    cases j with
    | zero => simp at hj
    | succ j' =>
      have hj' : r.length ≤ j' := by simpa using hj
      simp only [List.cons_append, List.set, List.length_cons, List.append_eq]
      rw [ih j' hj']
      have heq : j' + 1 - (r.length + 1) = j' - r.length := by omega
      rw [heq]

theorem set_eq_take_cons_drop (l : List Char) (j : Nat) (x : Char) (hj : j < l.length) :
    l.set j x = l.take j ++ x :: l.drop (j + 1) := by
  induction l generalizing j with
  | nil => cases hj
  | cons a r ih =>
    cases j with
    | zero => rfl
    | succ j' =>
      simp only [List.set, List.take, List.drop, List.cons_append]
      rw [ih j' (by simpa using hj)]

theorem decomp_at (l : List Char) (j : Nat) (hj : j < l.length) :
    l = l.take j ++ l.getD j ' ' :: l.drop (j + 1) := by
  induction l generalizing j with
  | nil => cases hj
  | cons a r ih =>
    cases j with
    | zero => rfl
    | succ j' =>
      simp only [List.take, List.drop, List.cons_append, List.getD_cons_succ]
      exact congrArg (a :: ·) (ih j' (by simpa using hj))

theorem asciiLower_eq_dash (c : Char) (h1 : asciiLower c = '-') : c = '-' := by
  unfold asciiLower at h1
  split at h1 <;> first | exact absurd h1 (by decide) | exact h1

theorem asciiLower_eq_plus (c : Char) (h1 : asciiLower c = '+') : c = '+' := by
  unfold asciiLower at h1
  split at h1 <;> first | exact absurd h1 (by decide) | exact h1

theorem normChar_some (c : Char) (hdash : c ≠ '-') (hplus : c ≠ '+') :
    ∃ d, normChar c = some d ∧ d ≠ '-' ∧ d ≠ '+' := by
  unfold normChar
  have hld : ¬ (asciiLower c = '-') := fun he => hdash (asciiLower_eq_dash c he)
  have hlp : asciiLower c ≠ '+' := fun he => hplus (asciiLower_eq_plus c he)
  rw [if_neg hld]
  by_cases h1 : asciiLower c = 'i'
  · rw [if_pos h1]
    exact ⟨'1', rfl, by decide, by decide⟩
  rw [if_neg h1]
  by_cases h2 : asciiLower c = 'l'
  · rw [if_pos h2]
    exact ⟨'1', rfl, by decide, by decide⟩
  rw [if_neg h2]
  by_cases h3 : asciiLower c = 'o'
  · rw [if_pos h3]
    exact ⟨'0', rfl, by decide, by decide⟩
  rw [if_neg h3]
  exact ⟨asciiLower c, rfl, hld, hlp⟩

theorem normalize_set (l : List Char) (j : Nat) (c d : Char)
    (hfix : ∀ x ∈ l, normChar x = some x) (hj : j < l.length)
    (hc : normChar c = some d) :
    normalize (l.set j c) = l.set j d := by
  induction l generalizing j with
  | nil => cases hj
  | cons a rest ih =>
    cases j with
    | zero =>
      simp only [List.set, normalize, List.filterMap_cons, hc]
      exact congrArg (d :: ·)
        (normalize_fixed rest (fun x hx => hfix x (List.mem_cons_of_mem a hx)))
    | succ j' =>
      simp only [List.set, normalize, List.filterMap_cons,
        hfix a (List.mem_cons_self a rest)]
      exact congrArg (a :: ·) (ih j' (fun x hx => hfix x (List.mem_cons_of_mem a hx))
        (by simpa using hj))

theorem valNat_from (l : List Char) : ∀ a : Nat,
    l.foldl (fun x c => x * 32 + charIdxD c) a = a * 32 ^ l.length + valNat l := by
  induction l with
  | nil => intro a; simp [valNat]
  | cons c rest ih =>
    intro a
    simp only [List.foldl, List.length_cons, valNat]
    rw [ih (a * 32 + charIdxD c), ih (0 * 32 + charIdxD c)]
    ring

theorem valNat_append_cons (A B : List Char) (x : Char) :
    valNat (A ++ x :: B) = (valNat A * 32 + charIdxD x) * 32 ^ B.length + valNat B := by
  show (A ++ x :: B).foldl (fun a c => a * 32 + charIdxD c) 0 = _
  rw [List.foldl_append]
  simp only [List.foldl]
  rw [valNat_from]
  rfl

theorem decodeLoop_ok_of_mem (l : List Char) (h : ∀ c ∈ l, (charIndex c).isSome = true) :
    ∀ acc : Int, decodeLoop acc l = .ok (acc * 32 ^ l.length + (valNat l : Int)) := by
  induction l with
  | nil => intro acc; simp [decodeLoop, valNat]
  | cons c rest ih =>
    intro acc
    obtain ⟨i, hi⟩ := Option.isSome_iff_exists.mp (h c (List.mem_cons_self c rest))
    simp only [decodeLoop, hi]
    rw [ih (fun x hx => h x (List.mem_cons_of_mem c hx)) (acc * 32 + (i : Int))]
    congr 1
    have hv : valNat (c :: rest) = charIdxD c * 32 ^ rest.length + valNat rest := by
      show (c :: rest).foldl (fun a x => a * 32 + charIdxD x) 0 = _
      simp only [List.foldl]
      rw [valNat_from]
      ring_nf
    have hci : charIdxD c = i := by simp [charIdxD, hi]
    rw [hv, hci, List.length_cons, pow_succ]
    push_cast
    ring

theorem decodeLoop_err (l : List Char) (h : ¬ ∀ c ∈ l, (charIndex c).isSome = true) :
    ∀ acc : Int, ∃ ch, decodeLoop acc l = .error (.InvalidCharacter ch) := by
  induction l with
  | nil => exact absurd (by intro c hc; cases hc) h
  | cons c rest ih =>
    intro acc
    cases hci : charIndex c with
    | none => exact ⟨c, by simp [decodeLoop, hci]⟩
    | some i =>
      have h' : ¬ ∀ x ∈ rest, (charIndex x).isSome = true := by
        intro hall
        apply h
        intro x hx
        rcases List.mem_cons.mp hx with rfl | hx
        · simp [hci]
        · exact hall x hx
      obtain ⟨ch, hch⟩ := ih h' (acc * 32 + (i : Int))
      exact ⟨ch, by simp [decodeLoop, hci, hch]⟩

theorem payloadFull_mem_alpha (n : Nat) : ∀ c ∈ payloadFull n, (charIndex c).isSome = true := by
  by_cases hn : n = 0
  · subst hn; decide
  · simp only [payloadFull, if_neg hn]
    intro c hc
    obtain ⟨d, rfl⟩ := base32digits_mem n c hc
    rw [encChar_index d]
    rfl

theorem valNat_payloadFull (n : Nat) : valNat (payloadFull n) = n := by
  have h1 := decodeLoop_ok_of_mem (payloadFull n) (payloadFull_mem_alpha n) 0
  rw [decodeLoop_payloadFull n] at h1
  have h2 : (n : Int) = (valNat (payloadFull n) : Int) := by
    have := Except.ok.inj h1
    rw [this]
    ring
  exact_mod_cast h2.symm

theorem charIdxD_lt (c : Char) : charIdxD c < 32 := by
  unfold charIdxD charIndex
  cases hci : idxFrom c ENCODING_CHARS with
  | none => simp
  | some i =>
    obtain ⟨hi32, -⟩ := idxFrom_spec c ENCODING_CHARS i hci
    simpa using hi32

theorem valNat_lt_pow (l : List Char) : valNat l < 32 ^ l.length := by
  induction l with
  | nil => decide
  | cons c rest ih =>
    have hv : valNat (c :: rest) = charIdxD c * 32 ^ rest.length + valNat rest := by
      show (c :: rest).foldl (fun a x => a * 32 + charIdxD x) 0 = _
      simp only [List.foldl]
      rw [valNat_from]
      ring_nf
    have h1 := charIdxD_lt c
    rw [hv, List.length_cons, pow_succ]
    calc charIdxD c * 32 ^ rest.length + valNat rest
        < charIdxD c * 32 ^ rest.length + 32 ^ rest.length := by omega
      _ = (charIdxD c + 1) * 32 ^ rest.length := by ring
      _ ≤ 32 * 32 ^ rest.length := Nat.mul_le_mul_right _ (by omega)
      _ = 32 ^ rest.length * 32 := by ring

theorem base32digits_length_le : ∀ n k : Nat, n < 32 ^ k → (base32digits n).length ≤ k := by
  intro n
  induction n using Nat.strong_induction_on with
  | _ n ih =>
    intro k hk
    by_cases hn : n = 0
    · subst hn
      simp [show base32digits 0 = [] from rfl]
    · match k with
      | 0 =>
        rw [pow_zero] at hk
        omega
      | k + 1 =>
        rw [base32digits_pos n hn, List.length_append, List.length_singleton]
        have hdiv : n / 32 < n := Nat.div_lt_self (Nat.pos_of_ne_zero hn) (by norm_num)
        have hk2 : n / 32 < 32 ^ k := by
          rw [Nat.div_lt_iff_lt_mul (by norm_num)]
          calc n < 32 ^ (k + 1) := hk
            _ = 32 ^ k * 32 := by ring
        have := ih (n / 32) hdiv k hk2
        omega

theorem payloadFull_length_le (n k : Nat) (hk : n < 32 ^ k) (hk1 : 1 ≤ k) :
    (payloadFull n).length ≤ k := by
  by_cases hn : n = 0
  · subst hn
    simpa [payloadFull] using hk1
  · simp only [payloadFull, if_neg hn]
    exact base32digits_length_le n k hk

theorem mod97_aux (vA vB L a b : Nat) (hba : b < a) (ha : a < 32)
    (he : ((vA * 32 + a) * 32 ^ L + vB) % 97 = ((vA * 32 + b) * 32 ^ L + vB) % 97) :
    False := by
  have hmul : (vA * 32 + b) * 32 ^ L ≤ (vA * 32 + a) * 32 ^ L := by
    apply Nat.mul_le_mul_right
    omega
  have hle : (vA * 32 + b) * 32 ^ L + vB ≤ (vA * 32 + a) * 32 ^ L + vB := by omega
  have hdvd : 97 ∣ ((vA * 32 + a) * 32 ^ L + vB) - ((vA * 32 + b) * 32 ^ L + vB) :=
    (Nat.modEq_iff_dvd' hle).mp he.symm
  have hsub : ((vA * 32 + a) * 32 ^ L + vB) - ((vA * 32 + b) * 32 ^ L + vB) =
      (a - b) * 32 ^ L := by
    have h1 : (a - b) * 32 ^ L = a * 32 ^ L - b * 32 ^ L := Nat.sub_mul a b (32 ^ L)
    have h2 : (vA * 32 + a) * 32 ^ L = vA * 32 * 32 ^ L + a * 32 ^ L := Nat.add_mul _ _ _
    have h3 : (vA * 32 + b) * 32 ^ L = vA * 32 * 32 ^ L + b * 32 ^ L := Nat.add_mul _ _ _
    have h4 : b * 32 ^ L ≤ a * 32 ^ L := Nat.mul_le_mul_right _ (by omega)
    omega
  rw [hsub] at hdvd
  have hcop : Nat.Coprime 97 (32 ^ L) := Nat.Coprime.pow_right L (by decide)
  have h97 : 97 ∣ (a - b) := hcop.dvd_of_dvd_mul_right hdvd
  have hpos : 0 < a - b := Nat.sub_pos_of_lt hba
  have := Nat.le_of_dvd hpos h97
  omega

theorem mod97_change (vA vB L a b : Nat) (ha : a < 32) (hb : b < 32) (hab : a ≠ b) :
    ((vA * 32 + a) * 32 ^ L + vB) % 97 ≠ ((vA * 32 + b) * 32 ^ L + vB) % 97 := by
  intro he
  rcases Nat.lt_trichotomy a b with hlt | heq | hgt
  · exact mod97_aux vA vB L b a hlt hb he.symm
  · exact hab heq
  · exact mod97_aux vA vB L a b hgt ha he

theorem gcNat_ne (m n : Nat) (h : m % 97 ≠ n % 97) : gcNat m ≠ gcNat n := by
  unfold gcNat
  have h1 : (100 * m) % 97 ≠ (100 * n) % 97 := by
    intro he
    exact h (Nat.ModEq.cancel_left_of_coprime (by decide) he)
  have hm : (100 * m) % 97 < 97 := Nat.mod_lt _ (by norm_num)
  have hn : (100 * n) % 97 < 97 := Nat.mod_lt _ (by norm_num)
  omega

set_option maxRecDepth 8192
set_option maxHeartbeats 2000000

theorem isDigit_toNat (c : Char) (h : c.isDigit = true) :
    48 ≤ c.toNat ∧ c.toNat ≤ 57 := by
  simp only [Char.isDigit, Bool.and_eq_true, decide_eq_true_eq] at h
  obtain ⟨h1, h2⟩ := h
  exact ⟨h1, h2⟩

theorem isDigit_ne_plus (c : Char) (h : c.isDigit = true) : c ≠ '+' := by
  intro he
  subst he
  exact absurd h (by decide)

theorem char_toNat_inj (a b : Char) (h : a.toNat = b.toNat) : a = b := by
  rw [← Char.ofNat_toNat a, ← Char.ofNat_toNat b, h]

/-- `u8` parsing of a two-character string whose first character is not a
sign: both characters must be digits, and the value is read in base 10. -/
theorem parseU8_pair (x y : Char) (hx : x ≠ '+') :
    parseU8 [x, y] = if (x.isDigit && y.isDigit) = true then
      (if (x.toNat - 48) * 10 + (y.toNat - 48) ≤ 255
        then some ((x.toNat - 48) * 10 + (y.toNat - 48)) else none)
    else none := by
  simp only [parseU8, List.headD_cons, if_neg hx, List.all_cons, List.all_nil,
    Bool.and_true, List.foldl_cons, List.foldl_nil, Nat.zero_mul, Nat.zero_add]
  rw [if_neg (by simp : ¬ ([x, y] : List Char) = [])]

theorem payloadFull_mem_enc (n : Nat) :
    ∀ c ∈ payloadFull n, ∃ dfin : Fin 32, c = encChar dfin.val := by
  by_cases hn : n = 0
  · subst hn; decide
  · simp only [payloadFull, if_neg hn]
    exact base32digits_mem n

theorem getD_default_irrel (i : Nat) (hi : i < ENCODING_CHARS.length) (d1 d2 : Char) :
    ENCODING_CHARS.getD i d1 = ENCODING_CHARS.getD i d2 := by
  rw [List.getD_eq_getElem?_getD, List.getD_eq_getElem?_getD,
    List.getElem?_eq_getElem hi, Option.getD_some, Option.getD_some]

/-- C7 counterexample.  `encode 0 0 0 true = "098"`; replacing its middle
character by `'a'` (not a normalization substitution) yields
`InvalidChecksumFormat`, which is neither of the two errors the claim
allows.  Moreover single-character changes to `'-'` or `'+'` need not
produce an error at all: `decode "-98" true = Ok 0` (from `"098"`) and
`decode "1y+9" true = Ok 62` (from `encode 62 0 0 true = "1y09"`). -/
theorem c7_counterexample :
    encode 0 0 0 true = ['0', '9', '8'] ∧
    decode ['0', 'a', '8'] true = .error (.InvalidChecksumFormat ['a', '8']) ∧
    decode ['-', '9', '8'] true = .ok 0 ∧
    encode 62 0 0 true = ['1', 'y', '0', '9'] ∧
    decode ['1', 'y', '+', '9'] true = .ok 62 := by decide

/-- C7, amended.  For every `n ≥ 0` with `n ≤ 32^11 - 1` and
`s = encode n 0 0 true`, changing exactly one character of `s` to an ASCII
character `c` other than `'-'` and `'+'` whose normalization differs from
the original character makes `decode s' true` return an error — one of
`InvalidChecksum`, `InvalidCharacter` or `InvalidChecksumFormat` (the
original claim omitted the third and did not exclude `'-'`/`'+'`).  The
bound keeps every `i64` intermediate of the program exact on this domain:
the payload has at most 11 base32 digits, so the true and the mutated
payload values are below `32^11` and the product `100 * number` inside
`generate_checksum` stays below `2^63` on both the encode and the decode
side. -/
theorem c7_single_change (n j : Nat) (c : Char)
    (hn : n ≤ 36028797018963967)
    (_hascii : c.toNat < 128)
    (hdash : c ≠ '-') (hplus : c ≠ '+')
    (hj : j < (encode (n : Int) 0 0 true).length)
    (hchange : normChar c ≠ some ((encode (n : Int) 0 0 true).getD j ' ')) :
    ∃ e, decode ((encode (n : Int) 0 0 true).set j c) true = .error e := by
  obtain ⟨d, hncd, hd_dash, hd_plus⟩ := normChar_some c hdash hplus
  have hencF : encode (n : Int) 0 0 true =
      payloadFull n ++ format02 ((gcNat n : Nat) : Int) := by
    rw [encode_checksum_eq, generate_checksum_natCast n (by omega)]
  set P := payloadFull n with hP
  set F := format02 ((gcNat n : Nat) : Int) with hF
  have hbv := gcNat_bounds n
  have hv99 : gcNat n < 99 := by omega
  obtain ⟨hflen0, hparse, hchars, ht0a, ht1a, hdecFa⟩ := format02_facts ⟨gcNat n, hv99⟩ hbv.1
  have hparse2 : parseU8 F = some (gcNat n) := hparse
  have hchars2 : ∀ x ∈ F, normChar x = some x ∧ x.isDigit = true := hchars
  have hFlen : F.length = 2 := hflen0
  have ht0 : (F.getD 0 ' ').toNat = 48 + gcNat n / 10 := ht0a
  have ht1 : (F.getD 1 ' ').toNat = 48 + gcNat n % 10 := ht1a
  have hdecF : F = [F.getD 0 ' ', F.getD 1 ' '] := hdecFa
  have hPfix := payloadFull_norm n
  have hPlen : 1 ≤ P.length := List.length_pos.mpr (payloadFull_ne_nil n)
  rw [hencF] at hj hchange ⊢
  have hjlen : j < P.length + 2 := by
    rw [List.length_append, hFlen] at hj
    exact hj
  by_cases hcase : j < P.length
  · -- the changed position is in the payload
    have hget : (P ++ F).getD j ' ' = P.getD j ' ' := getD_append_left P F j ' ' hcase
    rw [hget] at hchange
    have hxne : d ≠ P.getD j ' ' := by
      intro he
      exact hchange (by rw [← he]; exact hncd)
    rw [set_append_left P F j c hcase]
    have hnorm : normalize (P.set j c ++ F) = P.set j d ++ F := by
      rw [normalize_append, normalize_set P j c d hPfix hcase hncd,
        normalize_fixed F (fun x hx => (hchars2 x hx).1)]
    have hslen : (P.set j d ++ F).length = P.length + 2 := by
      rw [List.length_append, List.length_set, hFlen]
    have hdrop : (P.set j d ++ F).drop P.length = F := by
      rw [← List.length_set P j d]
      exact List.drop_left _ _
    have htake : (P.set j d ++ F).take P.length = P.set j d := by
      rw [← List.length_set P j d]
      exact List.take_left _ _
    simp only [decode, hnorm, hslen]
    rw [if_neg (show ¬ (P.length + 2 < 2) by omega), Nat.add_sub_cancel, hdrop, htake,
      hparse2]
    by_cases halpha : ∀ x ∈ P.set j d, (charIndex x).isSome = true
    · -- replacement is an alphabet character: the checksum must differ
      have hdec := decodeLoop_ok_of_mem (P.set j d) halpha 0
      have hdec2 : decodeLoop 0 (P.set j d) = .ok ((valNat (P.set j d) : Nat) : Int) := by
        rw [hdec]
        congr 1
        ring
      have hdecomp := decomp_at P j hcase
      have hsetd : P.set j d = P.take j ++ d :: P.drop (j + 1) :=
        set_eq_take_cons_drop P j d hcase
      have hxmem : P.getD j ' ' ∈ P := by
        have hx0 : P.getD j ' ' ∈ P.take j ++ P.getD j ' ' :: P.drop (j + 1) :=
          List.mem_append.mpr (Or.inr (List.mem_cons_self _ _))
        rwa [← hdecomp] at hx0
      obtain ⟨dx, hdxeq⟩ := payloadFull_mem_enc n (P.getD j ' ') hxmem
      have hdmem : d ∈ P.set j d := by
        rw [hsetd]
        exact List.mem_append.mpr (Or.inr (List.mem_cons_self _ _))
      obtain ⟨i, hi⟩ := Option.isSome_iff_exists.mp (halpha d hdmem)
      obtain ⟨hi32, hig⟩ := idxFrom_spec d ENCODING_CHARS i hi
      have hi32' : i < 32 := by simpa using hi32
      have hine : i ≠ dx.val := by
        intro he
        apply hxne
        rw [hdxeq, ← hig, he]
        exact getD_default_irrel dx.val (lt_of_lt_of_le dx.isLt (by decide)) ' ' '0'
      have hidxd : charIdxD d = i := by simp [charIdxD, hi]
      have hidxx : charIdxD (P.getD j ' ') = dx.val := by
        rw [hdxeq]
        simp [charIdxD, encChar_index dx]
      have hvm : valNat (P.set j d) =
          (valNat (P.take j) * 32 + i) * 32 ^ (P.drop (j + 1)).length
            + valNat (P.drop (j + 1)) := by
        rw [hsetd, valNat_append_cons, hidxd]
      have hvn : n =
          (valNat (P.take j) * 32 + dx.val) * 32 ^ (P.drop (j + 1)).length
            + valNat (P.drop (j + 1)) := by
        conv_lhs => rw [← valNat_payloadFull n, ← hP, hdecomp]
        rw [valNat_append_cons, hidxx]
      have hmods : valNat (P.set j d) % 97 ≠ n % 97 := by
        rw [hvm, hvn]
        exact mod97_change _ _ _ i dx.val hi32' dx.isLt hine
      have hgcne : gcNat (valNat (P.set j d)) ≠ gcNat n := gcNat_ne _ _ hmods
      have h32e : (32 : Nat) ^ 11 = 36028797018963968 := by norm_num
      have hPle : P.length ≤ 11 :=
        payloadFull_length_le n 11 (by omega) (by norm_num)
      have hmlt : valNat (P.set j d) < 32 ^ 11 := by
        have hval := valNat_lt_pow (P.set j d)
        rw [List.length_set] at hval
        exact lt_of_lt_of_le hval (Nat.pow_le_pow_right (by norm_num) hPle)
      have hmb : 100 * valNat (P.set j d) ≤ 9223372036854775807 := by omega
      have hvfalse : validate ((valNat (P.set j d) : Nat) : Int) (Int.ofNat (gcNat n)) =
          false := by
        simp only [validate, generate_checksum_natCast _ hmb, beq_eq_false_iff_ne, ne_eq,
          Int.ofNat_eq_natCast, Nat.cast_inj]
        exact fun he => hgcne he.symm
      rw [hdec2]
      simp only [hvfalse, Bool.false_eq_true, if_false]
      exact ⟨_, rfl⟩
    · -- replacement is outside the alphabet: InvalidCharacter
      obtain ⟨ch, hch⟩ := decodeLoop_err (P.set j d) halpha 0
      rw [hch]
      exact ⟨_, rfl⟩
  · -- the changed position is in the two checksum digits
    have hge : P.length ≤ j := le_of_not_lt hcase
    have hpos2 : j - P.length < 2 := by omega
    have hget : (P ++ F).getD j ' ' = F.getD (j - P.length) ' ' :=
      getD_append_right P F j ' ' hge
    rw [hget] at hchange
    have hdne : d ≠ F.getD (j - P.length) ' ' := by
      intro he
      exact hchange (by rw [← he]; exact hncd)
    rw [set_append_right P F j c hge]
    have hnormF : normalize (P ++ F.set (j - P.length) c) = P ++ F.set (j - P.length) d := by
      rw [normalize_append, normalize_fixed P hPfix,
        normalize_set F (j - P.length) c d (fun x hx => (hchars2 x hx).1)
          (by rw [hFlen]; exact hpos2) hncd]
    have hslen2 : (P ++ F.set (j - P.length) d).length = P.length + 2 := by
      rw [List.length_append, List.length_set, hFlen]
    have hdrop : (P ++ F.set (j - P.length) d).drop P.length = F.set (j - P.length) d :=
      List.drop_left _ _
    have htake : (P ++ F.set (j - P.length) d).take P.length = P :=
      List.take_left _ _
    simp only [decode, hnormF, hslen2]
    rw [if_neg (show ¬ (P.length + 2 < 2) by omega), Nat.add_sub_cancel, hdrop, htake]
    have hmemA : F.getD 0 ' ' ∈ F := by
      have hm := List.mem_cons_self (F.getD 0 ' ') [F.getD 1 ' ']
      rwa [← hdecF] at hm
    have hmemB : F.getD 1 ' ' ∈ F := by
      have hm := List.mem_cons_of_mem (F.getD 0 ' ') (List.mem_cons_self (F.getD 1 ' ') [])
      rwa [← hdecF] at hm
    have hAdig : (F.getD 0 ' ').isDigit = true := (hchars2 _ hmemA).2
    have hBdig : (F.getD 1 ' ').isDigit = true := (hchars2 _ hmemB).2
    have hkey : parseU8 (F.set (j - P.length) d) ≠ some (gcNat n) := by
      have hmod10 : gcNat n % 10 < 10 := Nat.mod_lt _ (by norm_num)
      have hdiv10 : gcNat n / 10 ≤ 9 := by omega
      rcases (show j - P.length = 0 ∨ j - P.length = 1 by omega) with h0 | h1
      · rw [h0] at hdne ⊢
        have hset0 : F.set 0 d = [d, F.getD 1 ' '] := by
          conv_lhs => rw [hdecF]
          rfl
        rw [hset0, parseU8_pair d (F.getD 1 ' ') hd_plus]
        by_cases hdd : d.isDigit = true
        · obtain ⟨hdlo, hdhi⟩ := isDigit_toNat d hdd
          obtain ⟨hblo, hbhi⟩ := isDigit_toNat _ hBdig
          rw [if_pos (by rw [hdd, hBdig]; rfl), if_pos (by omega)]
          intro he
          injection he with he2
          exact hdne (char_toNat_inj d (F.getD 0 ' ') (by omega))
        · rw [if_neg (by simp [hdd])]
          exact fun he => Option.noConfusion he
      · rw [h1] at hdne ⊢
        have hset1 : F.set 1 d = [F.getD 0 ' ', d] := by
          conv_lhs => rw [hdecF]
          rfl
        rw [hset1, parseU8_pair (F.getD 0 ' ') d (isDigit_ne_plus _ hAdig)]
        by_cases hdd : d.isDigit = true
        · obtain ⟨hdlo, hdhi⟩ := isDigit_toNat d hdd
          obtain ⟨halo, hahi⟩ := isDigit_toNat _ hAdig
          rw [if_pos (by rw [hAdig, hdd]; rfl), if_pos (by omega)]
          intro he
          injection he with he2
          exact hdne (char_toNat_inj d (F.getD 1 ' ') (by omega))
        · rw [if_neg (by simp [hdd])]
          exact fun he => Option.noConfusion he
    cases hps : parseU8 (F.set (j - P.length) d) with
    | none => exact ⟨_, rfl⟩
    | some cs' =>
      have hne : cs' ≠ gcNat n := by
        intro he
        subst he
        exact hkey hps
      rw [decodeLoop_payloadFull]
      have hvfalse : validate ((n : Nat) : Int) (Int.ofNat cs') = false := by
        simp only [validate, generate_checksum_natCast n (by omega), beq_eq_false_iff_ne,
          ne_eq, Int.ofNat_eq_natCast, Nat.cast_inj]
        exact hne
      simp only [hvfalse, Bool.false_eq_true, if_false]
      exact ⟨_, rfl⟩

theorem c7_single_change_witness :
    ∃ e, decode ((encode (0 : Int) 0 0 true).set 1 'a') true = .error e :=
  c7_single_change 0 1 'a' (by decide) (by decide) (by decide) (by decide)
    (by decide) (by decide)

end Commonmeta
